import Mathlib

/-!
Verification of the Vector Pattern & Geometry Extraction Engine
(material_pattern_detector.py, plankopf_parser.py, door_geometry_extraction.py).

Numbers the source handles as Python floats are modelled as real numbers,
except for the purely arithmetical scale conversion, which is modelled over
the rationals.  Python `Optional` values become `Option`; Python truthiness
of optional floats/strings (where the source tests `if x:`) is modelled
explicitly by `..._truthy` helpers.  All functions are modelled from the
source files under src/ unless their doc comment says otherwise.
-/

open scoped Classical

noncomputable section

/-- Enum `PatternType` of plankopf_parser.py (lines 24-31): the kinds of fill
patterns in blueprints. -/
inductive PatternType where
  | HATCHING
  | CROSSHATCH
  | SOLID_FILL
  | DOT_PATTERN
  | STIPPLE
  | NONE
deriving DecidableEq

/-- RGB color with components in [0,1], as the 3-tuples PyMuPDF hands the
source (`color` / `fill` entries of a drawing dict). -/
def RGB : Type := ℝ × ℝ × ℝ

/-- Dataclass `PatternInfo` of plankopf_parser.py (lines 79-99): the visual
characteristics of a pattern.  Colors are `Option RGB` (the source stores
`None` or an RGB triple), angles and spacing `Option ℝ`. -/
structure PatternInfo where
  pattern_type : PatternType
  stroke_color : Option RGB := Option.none
  fill_color : Option RGB := Option.none
  hatching_angle : Option ℝ := Option.none
  hatching_spacing : Option ℝ := Option.none
  line_count : ℕ := 0
  secondary_angle : Option ℝ := Option.none

/-- Function `color_distance` of material_pattern_detector.py (lines 77-92):
Euclidean RGB distance; `0.0` when both colors are `None`, `1.0` when exactly
one is.  (The source's `len < 3` guard is unreachable here because colors are
typed as 3-tuples.) -/
def color_distance (c1 c2 : Option RGB) : ℝ :=
  match c1, c2 with
  | Option.none, Option.none => 0
  | Option.none, Option.some _ => 1
  | Option.some _, Option.none => 1
  | Option.some a, Option.some b =>
      Real.sqrt ((a.1 - b.1) * (a.1 - b.1) + (a.2.1 - b.2.1) * (a.2.1 - b.2.1)
        + (a.2.2 - b.2.2) * (a.2.2 - b.2.2))

/-- Python float `a % 180` for the modulus 180: the representative of `a`
in `[0, 180)`, as the source uses it to normalise undirected line angles. -/
def mod180 (a : ℝ) : ℝ := a - 180 * ⌊a / 180⌋

/-- Function `angle_distance` of material_pattern_detector.py (lines 95-108):
circular distance between two angles normalised mod 180; `45.0` when either
side is `None`. -/
def angle_distance (a1 a2 : Option ℝ) : ℝ :=
  match a1, a2 with
  | Option.some x, Option.some y =>
      let x := mod180 x
      let y := mod180 y
      let diff := |x - y|
      min diff (180 - diff)
  | _, _ => 45

/-- Proposition that both pattern types lie in `{SOLID_FILL, HATCHING}`:
the source's `{p1, p2} <= {SOLID_FILL, HATCHING}` set test
(material_pattern_detector.py lines 127-128). -/
def solid_hatch_pair (t1 t2 : PatternType) : Prop :=
  (t1 = PatternType.SOLID_FILL ∨ t1 = PatternType.HATCHING) ∧
    (t2 = PatternType.SOLID_FILL ∨ t2 = PatternType.HATCHING)

/-- Proposition that the first pattern is hatching or crosshatch — the
condition under which `patterns_match` checks angles
(material_pattern_detector.py line 146). -/
def hatching_like (p : PatternInfo) : Prop :=
  p.pattern_type = PatternType.HATCHING ∨ p.pattern_type = PatternType.CROSSHATCH

/-- Python truthiness of an optional float (`if x:`): present and nonzero. -/
def opt_real_truthy (x : Option ℝ) : Prop :=
  match x with
  | Option.none => False
  | Option.some v => v ≠ 0

/-- Function `patterns_match` of material_pattern_detector.py (lines 111-160),
translated with the source's early returns nested as conditionals.  The
spacing branch keeps the source's Python truthiness guard
(`if pattern1.hatching_spacing and pattern2.hatching_spacing`): a spacing of
`Some 0` counts as absent. -/
def patterns_match (pattern1 pattern2 : PatternInfo)
    (color_tolerance angle_tolerance spacing_tolerance : ℝ) : Bool × ℝ :=
  if pattern1.pattern_type ≠ pattern2.pattern_type ∧
      ¬ solid_hatch_pair pattern1.pattern_type pattern2.pattern_type then
    (false, 0)
  else
    let stroke_dist := color_distance pattern1.stroke_color pattern2.stroke_color
    if stroke_dist > color_tolerance ∧ stroke_dist > color_tolerance * 2 then
      (false, 0)
    else
      let confidence1 : ℝ := if stroke_dist > color_tolerance then 1 * 0.5 else 1
      let fill_dist := color_distance pattern1.fill_color pattern2.fill_color
      let confidence2 := if fill_dist > color_tolerance then confidence1 * 0.7 else confidence1
      let angle_dist := angle_distance pattern1.hatching_angle pattern2.hatching_angle
      if hatching_like pattern1 ∧ angle_dist > angle_tolerance ∧
          angle_dist > angle_tolerance * 2 then
        (false, 0)
      else
        let confidence3 :=
          if hatching_like pattern1 ∧ angle_dist > angle_tolerance then
            confidence2 * 0.5
          else confidence2
        let confidence4 :=
          match pattern1.hatching_spacing, pattern2.hatching_spacing with
          | Option.some s1, Option.some s2 =>
              if s1 ≠ 0 ∧ s2 ≠ 0 ∧ |s1 - s2| / max s1 s2 > spacing_tolerance then
                confidence3 * 0.7
              else confidence3
          | _, _ => confidence3
        (decide (confidence4 > 0.3), confidence4)

/-- Restatement of `patterns_match` in the spec's shape (section 4.3, steps
1-5): all hard rejections up front, then the confidence as one product of
penalty factors, accepted iff it exceeds 0.3.  Written from the claim, to be
compared with the translation of the source. -/
def patterns_match_spec (pattern1 pattern2 : PatternInfo)
    (color_tolerance angle_tolerance spacing_tolerance : ℝ) : Bool × ℝ :=
  let stroke_dist := color_distance pattern1.stroke_color pattern2.stroke_color
  let fill_dist := color_distance pattern1.fill_color pattern2.fill_color
  let angle_dist := angle_distance pattern1.hatching_angle pattern2.hatching_angle
  if (pattern1.pattern_type ≠ pattern2.pattern_type ∧
      ¬ solid_hatch_pair pattern1.pattern_type pattern2.pattern_type) ∨
      stroke_dist > color_tolerance * 2 ∨
      (hatching_like pattern1 ∧ angle_dist > angle_tolerance * 2) then
    (false, 0)
  else
    let spacing_over : Prop :=
      match pattern1.hatching_spacing, pattern2.hatching_spacing with
      | Option.some s1, Option.some s2 =>
          s1 ≠ 0 ∧ s2 ≠ 0 ∧ |s1 - s2| / max s1 s2 > spacing_tolerance
      | _, _ => False
    let confidence : ℝ :=
      (if stroke_dist > color_tolerance then 0.5 else 1) *
      (if fill_dist > color_tolerance then 0.7 else 1) *
      (if hatching_like pattern1 ∧ angle_dist > angle_tolerance then 0.5 else 1) *
      (if spacing_over then 0.7 else 1)
    (decide (confidence > 0.3), confidence)

/-- Test pattern of spec §8: a hatching pattern at 45 degrees with pure red
stroke color and no fill, spacing or secondary angle. -/
def hatch45 : PatternInfo :=
  { pattern_type := PatternType.HATCHING
    stroke_color := Option.some ((1 : ℝ), (0 : ℝ), (0 : ℝ))
    hatching_angle := Option.some 45 }

/-- Whitespace characters of the regex class `\s`. -/
def is_space_char (c : Char) : Bool :=
  c = ' ' ∨ c = '\t' ∨ c = '\n' ∨ c = '\r' ∨ c = '\x0b' ∨ c = '\x0c'

/-- Drop the leading run of `\s` characters (the regex `\s*`). -/
def drop_spaces : List Char → List Char
  | [] => []
  | c :: cs => if is_space_char c then drop_spaces cs else c :: cs

/-- Split off the leading run of decimal digits (the greedy regex `\d+`,
possibly empty). -/
def take_digits : List Char → List Char × List Char
  | [] => ([], [])
  | c :: cs =>
      if c.isDigit then
        let p := take_digits cs
        (c :: p.1, p.2)
      else ([], c :: cs)

/-- Numeric value of a digit string. -/
def digits_to_nat (ds : List Char) : ℕ :=
  ds.foldl (fun acc c => acc * 10 + (c.toNat - 48)) 0

/-- The scale regex of `convert_to_meters` (material_pattern_detector.py
line 521): `re.match(r"1\s*[:/]\s*(\d+)", scale)` — anchored at the start of
the string, trailing characters allowed.  Returns the captured denominator. -/
def parse_scale (scale : String) : Option ℕ :=
  match scale.toList with
  | '1' :: rest =>
      match drop_spaces rest with
      | c :: rest2 =>
          if c = ':' ∨ c = '/' then
            let p := take_digits (drop_spaces rest2)
            if p.1.isEmpty then Option.none else Option.some (digits_to_nat p.1)
          else Option.none
      | [] => Option.none
  | _ => Option.none

/-- Function `convert_to_meters` of material_pattern_detector.py (lines
502-534), over the rationals (all its arithmetic is exact; `25.4` is 127/5).
The second component carries the warnings the function emits: the source body
contains no warning or logging statement, so it is `[]` on every path. -/
def convert_to_meters (length_px : ℚ) (scale : String) (page_dpi : ℚ) :
    ℚ × List String :=
  let scale_factor : ℚ :=
    match parse_scale scale with
    | Option.some n => (n : ℚ)
    | Option.none => 100
  let length_mm_on_paper := length_px * (127 / 5) / page_dpi
  let real_mm := length_mm_on_paper * scale_factor
  (real_mm / 1000, [])

/-- A vector path item as the source's loops case on PyMuPDF drawing items:
`move` is `("m", p)`, `line_to` the two-element `("l", p)` form, `line_pair`
the three-element `("l", p1, p2)` form, `rect` is `("re", r)`, and `other`
covers commands the loops skip (curves, quads). -/
inductive DrawItem where
  | move (p : ℝ × ℝ)
  | line_to (p : ℝ × ℝ)
  | line_pair (p q : ℝ × ℝ)
  | rect (x0 y0 x1 y1 : ℝ)
  | other

/-- A PyMuPDF drawing dict, reduced to the keys the modelled functions read:
`items`, `color` (stroke) and `fill`. -/
structure Drawing where
  items : List DrawItem
  color : Option RGB := Option.none
  fill : Option RGB := Option.none

/-- Loop state of `calculate_region_length`: collected x/y coordinates, the
accumulated segment length, and the current pen position. -/
structure RegionLengthState where
  xs : List ℝ
  ys : List ℝ
  total_length : ℝ
  current_pos : Option (ℝ × ℝ)

/-- One iteration of the item loop of `calculate_region_length`
(material_pattern_detector.py lines 304-341).  In this function the
three-element `"l"` form takes priority over the pen position, and a
two-element `"l"` with no pen position is skipped. -/
def region_length_step (st : RegionLengthState) (item : DrawItem) : RegionLengthState :=
  match item with
  | DrawItem.move p =>
      { st with xs := st.xs ++ [p.1], ys := st.ys ++ [p.2], current_pos := Option.some p }
  | DrawItem.line_pair p q =>
      { st with
        xs := st.xs ++ [p.1, q.1], ys := st.ys ++ [p.2, q.2]
        total_length := st.total_length + Real.sqrt ((q.1 - p.1) ^ 2 + (q.2 - p.2) ^ 2)
        current_pos := Option.some q }
  | DrawItem.line_to p =>
      match st.current_pos with
      | Option.some c =>
          { st with
            xs := st.xs ++ [c.1, p.1], ys := st.ys ++ [c.2, p.2]
            total_length := st.total_length + Real.sqrt ((p.1 - c.1) ^ 2 + (p.2 - c.2) ^ 2)
            current_pos := Option.some p }
      | Option.none => st
  | DrawItem.rect x0 y0 x1 y1 =>
      { st with
        xs := st.xs ++ [x0, x1], ys := st.ys ++ [y0, y1]
        total_length := st.total_length + 2 * (|x1 - x0| + |y1 - y0|) }
  | DrawItem.other => st

/-- Maximum of a value and a list of values. -/
def list_max (a : ℝ) (l : List ℝ) : ℝ := l.foldl max a

/-- Minimum of a value and a list of values. -/
def list_min (a : ℝ) (l : List ℝ) : ℝ := l.foldl min a

/-- Function `calculate_region_length` of material_pattern_detector.py (lines
290-350): runs the item loop, then returns the longer bounding-box span of
the collected coordinates when there are any, else half the accumulated
length. -/
def calculate_region_length (drawing : Drawing) : ℝ :=
  let st := drawing.items.foldl region_length_step
    { xs := [], ys := [], total_length := 0, current_pos := Option.none }
  match st.xs, st.ys with
  | x :: xs, y :: ys =>
      max (list_max x xs - list_min x xs) (list_max y ys - list_min y ys)
  | _, _ => st.total_length / 2

/-- Segment lengths traced by a drawing, written from the claim for C5
("the sum of its line-segment lengths"): the Euclidean lengths of the
segments the item loop of `calculate_region_length` walks. -/
def segment_lengths_sum : Option (ℝ × ℝ) → List DrawItem → ℝ
  | _, [] => 0
  | _cur, DrawItem.move p :: rest => segment_lengths_sum (Option.some p) rest
  | _cur, DrawItem.line_pair p q :: rest =>
      Real.sqrt ((q.1 - p.1) ^ 2 + (q.2 - p.2) ^ 2) + segment_lengths_sum (Option.some q) rest
  | cur, DrawItem.line_to p :: rest =>
      match cur with
      | Option.some c =>
          Real.sqrt ((p.1 - c.1) ^ 2 + (p.2 - c.2) ^ 2) + segment_lengths_sum (Option.some p) rest
      | Option.none => segment_lengths_sum Option.none rest
  | cur, DrawItem.rect _ _ _ _ :: rest => segment_lengths_sum cur rest
  | cur, DrawItem.other :: rest => segment_lengths_sum cur rest

/-- Concrete open polyline for C5: pen down at the origin, east 10 units,
then north 5 units — an L-shaped open path of total segment length 15 whose
bounding box is 10 by 5. -/
def open_polyline : Drawing :=
  { items := [DrawItem.move ((0 : ℝ), (0 : ℝ)),
              DrawItem.line_to ((10 : ℝ), (0 : ℝ)),
              DrawItem.line_to ((10 : ℝ), (5 : ℝ))] }

/-- Insert `x` into a list after every element `y` with `le y x`.  Together
with `sort_by` this is a stable insertion sort, modelling Python's stable
`sorted`. -/
def insert_le {α : Type} (le : α → α → Prop) [DecidableRel le] (x : α) :
    List α → List α
  | [] => [x]
  | y :: ys => if le y x then y :: insert_le le x ys else x :: y :: ys

/-- Stable sort by the total preorder `le`: elements are inserted in input
order, each after all previously placed elements that compare `le` to it, so
ties keep the input order exactly as Python's `sorted` does. -/
def sort_by {α : Type} (le : α → α → Prop) [DecidableRel le] (l : List α) : List α :=
  l.foldl (fun acc x => insert_le le x acc) []

/-- Dataclass `BoundingBox` of plankopf_parser.py (lines 34-76), reduced to
its four coordinates (the derived width/height/center properties are not read
by the modelled functions). -/
structure BoundingBox where
  x0 : ℝ
  y0 : ℝ
  x1 : ℝ
  y1 : ℝ

/-- Dataclass `DetectedRegion` of material_pattern_detector.py (lines 23-49).
The `matched_symbol` field holds the legend symbol's id (the merge loop never
reads it and drops it when it builds a merged region, exactly as the source's
constructor call does by omission). -/
structure DetectedRegion where
  region_id : String
  bbox : BoundingBox
  pattern_info : PatternInfo
  matched_symbol : Option String := Option.none
  confidence : ℝ := 0
  length_px : ℝ := 0
  length_m : Option ℝ := Option.none
  wall_thickness_px : ℝ := 0

/-- Sort key order of `merge_adjacent_regions` (material_pattern_detector.py
line 469): lexicographic on `(bbox.y0, bbox.x0)`. -/
def region_key_le (r1 r2 : DetectedRegion) : Prop :=
  r1.bbox.y0 < r2.bbox.y0 ∨ (r1.bbox.y0 = r2.bbox.y0 ∧ r1.bbox.x0 ≤ r2.bbox.x0)

/-- The merged region the loop body of `merge_adjacent_regions` builds
(material_pattern_detector.py lines 481-493): union bounding box, pairwise
averaged confidence and wall thickness, summed length, first region's id and
pattern, no matched symbol. -/
def merge_two (current region : DetectedRegion) : DetectedRegion :=
  { region_id := current.region_id
    bbox :=
      { x0 := min current.bbox.x0 region.bbox.x0
        y0 := min current.bbox.y0 region.bbox.y0
        x1 := max current.bbox.x1 region.bbox.x1
        y1 := max current.bbox.y1 region.bbox.y1 }
    pattern_info := current.pattern_info
    confidence := (current.confidence + region.confidence) / 2
    length_px := current.length_px + region.length_px
    wall_thickness_px := (current.wall_thickness_px + region.wall_thickness_px) / 2 }

/-- The merge loop of `merge_adjacent_regions` (material_pattern_detector.py
lines 472-499): walk the sorted regions, folding each into the current
accumulated region when the gap is within `merge_distance` on both axes, else
emitting the accumulated region and starting over. -/
def merge_loop (merge_distance : ℝ) (current : DetectedRegion) :
    List DetectedRegion → List DetectedRegion
  | [] => [current]
  | region :: rest =>
      let x_gap := max 0 (region.bbox.x0 - current.bbox.x1)
      let y_gap := max 0 (region.bbox.y0 - current.bbox.y1)
      if x_gap ≤ merge_distance ∧ y_gap ≤ merge_distance then
        merge_loop merge_distance (merge_two current region) rest
      else
        current :: merge_loop merge_distance region rest

/-- Function `merge_adjacent_regions` of material_pattern_detector.py (lines
458-499). -/
def merge_adjacent_regions (regions : List DetectedRegion) (merge_distance : ℝ) :
    List DetectedRegion :=
  if regions.length ≤ 1 then regions
  else
    match sort_by region_key_le regions with
    | [] => []
    | r :: rest => merge_loop merge_distance r rest

/-- Concrete adjacent regions for C6: three aligned 10 by 10 boxes with
2-unit gaps, confidences 1, 1 and 0, each of length 10. -/
def c6_region (x0 : ℝ) (confidence : ℝ) : DetectedRegion :=
  { region_id := "region_0001"
    bbox := { x0 := x0, y0 := 0, x1 := x0 + 10, y1 := 10 }
    pattern_info := { pattern_type := PatternType.HATCHING }
    confidence := confidence
    length_px := 10 }

/-- The three-region chain used by C6's counterexample. -/
def c6_regions : List DetectedRegion :=
  [c6_region 0 1, c6_region 12 1, c6_region 24 0]

/-- Python truthiness of an optional string (`if s:`): present and nonempty. -/
def opt_str_truthy (s : Option String) : Bool :=
  match s with
  | Option.none => false
  | Option.some v => !v.isEmpty

/-- Whether the first list is a prefix of the second (on characters). -/
def list_is_pre : List Char → List Char → Bool
  | [], _ => true
  | _ :: _, [] => false
  | a :: as, b :: bs => a == b && list_is_pre as bs

/-- Whether `needle` occurs as a contiguous substring of `hay`: the Python
`in` operator on strings, as `extract_door_attributes` uses it on fire-rating
strings. -/
def list_has_sub (needle : List Char) : List Char → Bool
  | [] => list_is_pre needle []
  | c :: cs => list_is_pre needle (c :: cs) || list_has_sub needle cs

/-- String containment `needle in hay`. -/
def str_contains (hay needle : String) : Bool :=
  list_has_sub needle.toList hay.toList

/-- Consume exactly `n` decimal digits (the regex `\d{n}`), returning the
rest of the input, or `none` when fewer digits are available. -/
def exact_digits : ℕ → List Char → Option (List Char)
  | 0, cs => Option.some cs
  | _ + 1, [] => Option.none
  | n + 1, c :: cs => if c.isDigit then exact_digits n cs else Option.none

/-- Match of the door-number core regex `B\.\d{2}\.\d+\.\d{3}` at the head of
the input, returning the remaining characters on success.  The `\d+` segment
is the maximal digit run followed by a literal dot (backtracking can never
make a failing literal dot succeed, so greedy matching is deterministic
here), and the counted segments `\d{2}`/`\d{3}` consume exactly that many
digits. -/
def door_number_core (cs : List Char) : Option (List Char) :=
  match cs with
  | 'B' :: '.' :: rest =>
      match exact_digits 2 rest with
      | Option.some ('.' :: rest2) =>
          let p := take_digits rest2
          if p.1.isEmpty then Option.none
          else
            match p.2 with
            | '.' :: rest3 => exact_digits 3 rest3
            | _ => Option.none
      | _ => Option.none
  | _ => Option.none

/-- The dedup pattern `re.compile(r'B\.\d{2}\.\d+\.\d{3}-\d+').match(s)` of
`_extract_doors_from_page` (door_geometry_extraction.py line 375): anchored
at the start of the string (`.match`), trailing characters allowed. -/
def door_number_with_suffix_match (s : String) : Bool :=
  match door_number_core s.toList with
  | Option.some ('-' :: rest) => !(take_digits rest).1.isEmpty
  | _ => false

/-- The label-only pattern `re.compile(r'B\.\d{2}\.\d+\.\d{3}(?:-\d+)?').search(s)`
of `associate_labels_with_geometries` (door_geometry_extraction.py line 652):
a match exists somewhere in the string iff the mandatory core matches at some
position (the trailing group is optional). -/
def door_number_search_list : List Char → Bool
  | [] => false
  | c :: cs => (door_number_core (c :: cs)).isSome || door_number_search_list cs

/-- String form of `door_number_search_list`. -/
def door_number_search (s : String) : Bool :=
  door_number_search_list s.toList

/-- Dataclass `DoorLabel` of door_label_detection.py (lines 58-90), with the
`metadata` dict dropped (no modelled function reads it). -/
structure DoorLabel where
  label_text : String
  raw_text : String
  page_number : ℤ
  bbox : BoundingBox
  confidence : ℝ
  pattern_type : String
  width_m : Option ℝ := Option.none
  height_m : Option ℝ := Option.none
  door_type : Option String := Option.none
  fire_rating : Option String := Option.none

/-- Dataclass `DoorGeometry` of door_geometry_extraction.py (lines 38-78),
reduced to the fields the modelled pipeline reads (the provenance fields
`arc_center`, `arc_radius_px`, `leaf_line`, `parallel_lines`, `metadata` are
carried through untouched by association and dedup). -/
structure DoorGeometry where
  geometry_id : String
  page_number : ℤ
  center : ℝ × ℝ
  width_px : ℝ
  height_px : Option ℝ := Option.none
  orientation_deg : ℝ := 0
  opening_type : String := "unknown"
  bbox : BoundingBox := { x0 := 0, y0 := 0, x1 := 0, y1 := 0 }
  confidence : ℝ := 0.8
  source_type : String := "vector"

/-- Dataclass `DoorExtraction` of door_geometry_extraction.py (lines 81-124).
The source gives each record a fresh uuid `extraction_id`; the model assigns
a number unique within one associator run instead. -/
structure DoorExtraction where
  extraction_id : ℕ
  page_number : ℤ
  label : Option DoorLabel := Option.none
  geometry : Option DoorGeometry := Option.none
  width_m : Option ℝ := Option.none
  height_m : Option ℝ := Option.none
  door_type : Option String := Option.none
  door_number : Option String := Option.none
  fire_rating : Option String := Option.none
  category : Option String := Option.none
  confidence : ℝ := 0
  extraction_method : String := "unknown"
  scale_context_id : Option String := Option.none
  assumptions : List String := []
  warnings : List String := []

/-- Modelled from the spec: dataclass `ScaleContext` of scale_calibration.py,
which is not among the staged sources.  Spec §3 gives
`{scale_factor: int, pixels_per_meter, detection_method, valid}`, and
door_geometry_extraction.py constructs it with an `id` and reads `id`,
`scale_factor` and `pixels_per_meter`. -/
structure ScaleContext where
  id : String
  scale_factor : ℕ
  pixels_per_meter : ℝ
  detection_method : String := "user_provided"
  valid : Bool := true

/-- Center of a label bounding box, `((x0+x1)/2, (y0+y1)/2)`. -/
def bbox_center (b : BoundingBox) : ℝ × ℝ := ((b.x0 + b.x1) / 2, (b.y0 + b.y1) / 2)

/-- Euclidean distance between two points, as the associator computes it. -/
def center_distance (a b : ℝ × ℝ) : ℝ :=
  Real.sqrt ((b.1 - a.1) ^ 2 + (b.2 - a.2) ^ 2)

/-- Sort order of the associator's geometry list (door_geometry_extraction.py
line 596): descending confidence. -/
def geometry_confidence_ge (g1 g2 : DoorGeometry) : Prop :=
  g2.confidence ≤ g1.confidence

/-- One iteration of the nearest-geometry scan of
`associate_labels_with_geometries` (door_geometry_extraction.py lines
608-620): skip claimed geometries, keep the strictly closest geometry within
`max_distance_px`.  The source starts `nearest_distance` at infinity, which
the `Option.none` state models: the first in-radius geometry is always
taken. -/
def find_nearest_step (label_center : ℝ × ℝ) (matched : List String)
    (max_distance_px : ℝ) (acc : Option (DoorGeometry × ℝ)) (g : DoorGeometry) :
    Option (DoorGeometry × ℝ) :=
  if g.geometry_id ∈ matched then acc
  else
    let distance := center_distance label_center g.center
    match acc with
    | Option.none =>
        if distance ≤ max_distance_px then Option.some (g, distance) else Option.none
    | Option.some (g0, d0) =>
        if distance < d0 ∧ distance ≤ max_distance_px then Option.some (g, distance)
        else Option.some (g0, d0)

/-- The nearest-geometry scan over the whole sorted geometry list. -/
def find_nearest (label_center : ℝ × ℝ) (matched : List String)
    (max_distance_px : ℝ) (geometries : List DoorGeometry) :
    Option (DoorGeometry × ℝ) :=
  geometries.foldl (find_nearest_step label_center matched max_distance_px) Option.none

/-- The matched record of door_geometry_extraction.py lines 624-631. -/
def make_matched_door (i : ℕ) (label : DoorLabel) (g : DoorGeometry) : DoorExtraction :=
  { extraction_id := i
    page_number := label.page_number
    label := Option.some label
    geometry := Option.some g
    extraction_method := "label_geometry_match"
    confidence := min label.confidence g.confidence }

/-- The geometry-only record of door_geometry_extraction.py lines 640-647. -/
def make_geometry_only_door (i : ℕ) (g : DoorGeometry) : DoorExtraction :=
  { extraction_id := i
    page_number := g.page_number
    geometry := Option.some g
    extraction_method := "geometry_only"
    confidence := g.confidence * 0.7
    warnings := ["No label found near this door geometry"] }

/-- The label-only record of door_geometry_extraction.py lines 677-684. -/
def make_label_only_door (i : ℕ) (label : DoorLabel) : DoorExtraction :=
  { extraction_id := i
    page_number := label.page_number
    label := Option.some label
    extraction_method := "label_only"
    confidence := label.confidence * 0.8
    warnings := ["Door label found but no geometry detected nearby"] }

/-- The label-matching loop of `associate_labels_with_geometries`
(door_geometry_extraction.py lines 599-635), over the enumerated labels.
State: emitted doors, claimed geometry ids, matched label indices. -/
def match_labels_loop (geometries_sorted : List DoorGeometry) (max_distance_px : ℝ) :
    List (ℕ × DoorLabel) → List DoorExtraction → List String → List ℕ →
    List DoorExtraction × List String × List ℕ
  | [], doors, matched_g, matched_l => (doors, matched_g, matched_l)
  | (i, label) :: rest, doors, matched_g, matched_l =>
      match find_nearest (bbox_center label.bbox) matched_g max_distance_px
          geometries_sorted with
      | Option.some (g, _) =>
          match_labels_loop geometries_sorted max_distance_px rest
            (doors ++ [make_matched_door i label g])
            (matched_g ++ [g.geometry_id]) (matched_l ++ [i])
      | Option.none =>
          match_labels_loop geometries_sorted max_distance_px rest doors matched_g matched_l

/-- The unmatched-geometry loop of `associate_labels_with_geometries`
(door_geometry_extraction.py lines 638-648): every unclaimed geometry, in
sorted order, becomes a geometry-only record. -/
def geometry_only_doors (geometries_sorted : List DoorGeometry)
    (matched_g : List String) (base_id : ℕ) : List DoorExtraction :=
  match geometries_sorted with
  | [] => []
  | g :: rest =>
      if g.geometry_id ∈ matched_g then geometry_only_doors rest matched_g (base_id + 1)
      else make_geometry_only_door base_id g :: geometry_only_doors rest matched_g (base_id + 1)

/-- The nearby-fire-rating scan of `associate_labels_with_geometries`
(door_geometry_extraction.py lines 659-671): the `fire_rating` field of the
FIRST label (in list order) of pattern type `fire_rating` whose center is
strictly within 100px — the loop breaks there even when that field is
`None`. -/
def fire_rating_search (label : DoorLabel) : List DoorLabel → Option String
  | [] => Option.none
  | other :: rest =>
      if other.pattern_type = "fire_rating" ∧
          center_distance (bbox_center other.bbox) (bbox_center label.bbox) < 100 then
        other.fire_rating
      else fire_rating_search label rest

/-- One iteration of the unmatched-label loop of
`associate_labels_with_geometries` (door_geometry_extraction.py lines
654-685).  The state carries the current labels list because the source
mutates `label.fire_rating` in place on the list's own objects (line 675);
the emitted record aliases the updated label. -/
def label_only_step (matched_l : List ℕ) (base_id : ℕ)
    (st : List DoorLabel × List DoorExtraction) (i : ℕ) :
    List DoorLabel × List DoorExtraction :=
  match st.1.get? i with
  | Option.none => st
  | Option.some label =>
      if i ∈ matched_l then st
      else if label.pattern_type = "room_door" ∨ door_number_search label.label_text then
        let fire_rating := fire_rating_search label st.1
        let updated :=
          if opt_str_truthy fire_rating ∧ ¬ opt_str_truthy label.fire_rating then
            { label with fire_rating := fire_rating }
          else label
        let labels1 :=
          if opt_str_truthy fire_rating ∧ ¬ opt_str_truthy label.fire_rating then
            st.1.set i updated
          else st.1
        (labels1, st.2 ++ [make_label_only_door (base_id + i) updated])
      else st

/-- Function `associate_labels_with_geometries` of
door_geometry_extraction.py (lines 563-687), returning both the emitted door
records and the final state of the input labels list (whose fire-rating
fields the source mutates in place during the label-only phase). -/
def associate_full (labels : List DoorLabel) (geometries : List DoorGeometry)
    (max_distance_px : ℝ) : List DoorExtraction × List DoorLabel :=
  let geometries_sorted := sort_by geometry_confidence_ge geometries
  let phase1 := match_labels_loop geometries_sorted max_distance_px labels.enum [] [] []
  let doors2 := phase1.1 ++ geometry_only_doors geometries_sorted phase1.2.1 labels.length
  let phase3 := (List.range labels.length).foldl
    (label_only_step phase1.2.2 (labels.length + geometries.length)) (labels, [])
  (doors2 ++ phase3.2, phase3.1)

/-- The door records `associate_labels_with_geometries` returns. -/
def associate_labels_with_geometries (labels : List DoorLabel)
    (geometries : List DoorGeometry) (max_distance_px : ℝ) : List DoorExtraction :=
  (associate_full labels geometries max_distance_px).1

/-- The state of the caller's labels list after
`associate_labels_with_geometries` returns. -/
def associate_final_labels (labels : List DoorLabel) (geometries : List DoorGeometry)
    (max_distance_px : ℝ) : List DoorLabel :=
  (associate_full labels geometries max_distance_px).2

/-- Condition of the first branch of `extract_door_attributes`
(door_geometry_extraction.py line 714): a label is present and its `width_m`
is truthy. -/
def label_width_truthy (e : DoorExtraction) : Prop :=
  match e.label with
  | Option.some l => opt_real_truthy l.width_m
  | Option.none => False

/-- Condition of the second branch (line 720): a geometry is present, a scale
context is present, and its `pixels_per_meter` is truthy. -/
def geometry_scale_truthy (e : DoorExtraction) (sc : Option ScaleContext) : Prop :=
  e.geometry.isSome ∧
    match sc with
    | Option.some s => s.pixels_per_meter ≠ 0
    | Option.none => False

/-- Width/height block of `extract_door_attributes`
(door_geometry_extraction.py lines 713-727): label dimensions take priority,
then a geometry measurement converted with the scale context. -/
def attr_width_update (extraction : DoorExtraction)
    (scale_context : Option ScaleContext) : DoorExtraction :=
  if label_width_truthy extraction then
    match extraction.label with
    | Option.some l =>
        { extraction with
          width_m := l.width_m
          height_m := l.height_m
          assumptions := extraction.assumptions ++ ["Width/height from label text"] }
    | Option.none => extraction
  else if geometry_scale_truthy extraction scale_context then
    match extraction.geometry, scale_context with
    | Option.some g, Option.some s =>
        { extraction with
          width_m := Option.some (g.width_px / s.pixels_per_meter)
          height_m :=
            if opt_real_truthy g.height_px then
              (g.height_px.map fun h => h / s.pixels_per_meter)
            else extraction.height_m
          assumptions := extraction.assumptions ++
            ["Width calculated from geometry (scale 1:" ++ toString s.scale_factor ++ ")"] }
    | _, _ => extraction
  else extraction

/-- Door type, fire rating and door number blocks of
`extract_door_attributes` (door_geometry_extraction.py lines 729-739). -/
def attr_label_update (e : DoorExtraction) : DoorExtraction :=
  let e2 :=
    match e.label with
    | Option.some l =>
        if opt_str_truthy l.door_type then { e with door_type := l.door_type } else e
    | Option.none => e
  let e3 :=
    match e2.label with
    | Option.some l =>
        if opt_str_truthy l.fire_rating then { e2 with fire_rating := l.fire_rating } else e2
    | Option.none => e2
  match e3.label with
  | Option.some l => { e3 with door_number := Option.some l.label_text }
  | Option.none => e3

/-- Category block of `extract_door_attributes`
(door_geometry_extraction.py lines 741-752).  The category strings
T90/T30/DSS/Standard are the values of enum `DoorCategory` of gewerke.py,
which is not among the staged sources; they are modelled from the spec's
fixed category table (§4.6). -/
def attr_category_update (e : DoorExtraction) : DoorExtraction :=
  if opt_str_truthy e.fire_rating then
    match e.fire_rating with
    | Option.some fr =>
        if str_contains fr "T90" then { e with category := Option.some "T90" }
        else if str_contains fr "T30" then { e with category := Option.some "T30" }
        else if str_contains fr "DSS" || str_contains fr "Rauchschutz" then
          { e with category := Option.some "DSS" }
        else { e with category := Option.some "Standard" }
    | Option.none => { e with category := Option.some "Standard" }
  else { e with category := Option.some "Standard" }

/-- Scale-context id block of `extract_door_attributes`
(door_geometry_extraction.py lines 754-756). -/
def attr_scale_update (e : DoorExtraction) (scale_context : Option ScaleContext) :
    DoorExtraction :=
  match scale_context with
  | Option.some s => { e with scale_context_id := Option.some s.id }
  | Option.none => e

/-- Function `extract_door_attributes` of door_geometry_extraction.py (lines
690-756), modelled as a pure record update (the source mutates its argument
in place and returns `None`). -/
def extract_door_attributes (extraction : DoorExtraction)
    (scale_context : Option ScaleContext) : DoorExtraction :=
  attr_scale_update
    (attr_category_update (attr_label_update (attr_width_update extraction scale_context)))
    scale_context

/-- Dictionary key of the dedup pass: a door number, or the record's own id
for records without one. -/
def DedupKey : Type := String ⊕ ℕ

instance : DecidableEq DedupKey := by
  unfold DedupKey
  infer_instance

/-- Insertion-ordered dictionary assignment `dict[k] = v`, with a `replace`
guard deciding whether an existing value is overwritten: a new key is
appended at the end, an existing key keeps its position. -/
def upsert_entry (replace : DoorExtraction → DoorExtraction → Prop) (k : DedupKey)
    (v : DoorExtraction) :
    List (DedupKey × DoorExtraction) → List (DedupKey × DoorExtraction)
  | [] => [(k, v)]
  | (k0, v0) :: rest =>
      if k0 = k then
        if replace v0 v then (k0, v) :: rest else (k0, v0) :: rest
      else (k0, v0) :: upsert_entry replace k v rest

/-- Dictionary update keeping the higher confidence: the
`if door_num not in unique_doors or door.confidence > ...` assignment of
door_geometry_extraction.py lines 383-385 — an existing entry is overwritten
only by a strictly higher confidence. -/
def upsert_keep_max (k : DedupKey) (v : DoorExtraction)
    (l : List (DedupKey × DoorExtraction)) : List (DedupKey × DoorExtraction) :=
  upsert_entry (fun v0 w => w.confidence > v0.confidence) k v l

/-- Unconditional dictionary assignment: the `unique_doors[unique_id] = door`
of door_geometry_extraction.py line 389. -/
def upsert_plain (k : DedupKey) (v : DoorExtraction)
    (l : List (DedupKey × DoorExtraction)) : List (DedupKey × DoorExtraction) :=
  upsert_entry (fun _ _ => True) k v l

/-- One iteration of the dedup loop of `_extract_doors_from_page`
(door_geometry_extraction.py lines 378-389): records with a truthy door
number are kept only when it matches the suffixed pattern, keyed by the
number; records without one are keyed by their own id. -/
def dedup_step (acc : List (DedupKey × DoorExtraction)) (door : DoorExtraction) :
    List (DedupKey × DoorExtraction) :=
  match door.door_number with
  | Option.some n =>
      if n ≠ "" then
        if door_number_with_suffix_match n then upsert_keep_max (Sum.inl n) door acc
        else acc
      else upsert_plain (Sum.inr door.extraction_id) door acc
  | Option.none => upsert_plain (Sum.inr door.extraction_id) door acc

/-- The dedup pass of `_extract_doors_from_page` (door_geometry_extraction.py
lines 377-391): fold the dedup dictionary and return its values in insertion
order. -/
def dedup_doors (doors : List DoorExtraction) : List (DedupKey × DoorExtraction) :=
  doors.foldl dedup_step []

/-- Lines 370-391 of door_geometry_extraction.py: drop records below the
caller's minimum confidence, then deduplicate. -/
def page_filter_dedup (doors : List DoorExtraction) (min_confidence : ℝ) :
    List DoorExtraction :=
  (dedup_doors (doors.filter fun d => decide (d.confidence ≥ min_confidence))).map Prod.snd

/-- Stages 3-4 of `_extract_doors_from_page` (door_geometry_extraction.py
lines 358-395): associate labels with geometries, extract attributes, filter
by minimum confidence and deduplicate.  (Stages 1-2 read the PDF through
external collaborators and are the callers that supply `labels` and
`geometries`.) -/
def extract_doors_stage34 (labels : List DoorLabel) (geometries : List DoorGeometry)
    (scale_context : Option ScaleContext) (search_radius_px min_confidence : ℝ) :
    List DoorExtraction :=
  let doors := associate_labels_with_geometries labels geometries search_radius_px
  let doors := doors.map fun d => extract_door_attributes d scale_context
  page_filter_dedup doors min_confidence

/-- Concrete label for C2's test point: bbox centered at (110, 105). -/
def c2_label : DoorLabel :=
  { label_text := "B.00.2.006-1"
    raw_text := "B.00.2.006-1"
    page_number := 1
    bbox := { x0 := 100, y0 := 100, x1 := 120, y1 := 110 }
    confidence := 0.9
    pattern_type := "room_door" }

/-- Concrete geometry for C2's test point: center (115, 105), 5px from the
label center. -/
def c2_geometry : DoorGeometry :=
  { geometry_id := "door_001"
    page_number := 1
    center := ((115 : ℝ), (105 : ℝ))
    width_px := 50
    opening_type := "arc"
    confidence := 0.85 }

/-- Concrete duplicated door record for C3: same door number, varying
confidence. -/
def c3_door (i : ℕ) (confidence : ℝ) : DoorExtraction :=
  { extraction_id := i
    page_number := 1
    door_number := Option.some "B.00.2.006-1"
    confidence := confidence
    extraction_method := "label_only" }

/-- Concrete unmatched door label for C4: genuine door identifier, no fire
rating yet, bbox centered at (5, 5). -/
def c4_door_label : DoorLabel :=
  { label_text := "B.00.2.006-1"
    raw_text := "B.00.2.006-1"
    page_number := 1
    bbox := { x0 := 0, y0 := 0, x1 := 10, y1 := 10 }
    confidence := 0.9
    pattern_type := "room_door" }

/-- Concrete fire-rating label for C4: 20px below the door label. -/
def c4_fire_label : DoorLabel :=
  { label_text := "T 30-RS"
    raw_text := "T 30-RS"
    page_number := 1
    bbox := { x0 := 0, y0 := 20, x1 := 10, y1 := 30 }
    confidence := 0.85
    pattern_type := "fire_rating"
    fire_rating := Option.some "T30" }

/-- Modelled from the spec: dataclass `LineSegment` of vector_measurement.py,
which is not among the staged sources.  Spec §6 describes vector line items
by their endpoints; `_distance_between_parallel_lines` reads the endpoint
coordinates and the midpoint property. -/
structure LineSegment where
  x1 : ℝ
  y1 : ℝ
  x2 : ℝ
  y2 : ℝ

/-- Midpoint property of a line segment. -/
def seg_midpoint (s : LineSegment) : ℝ × ℝ := ((s.x1 + s.x2) / 2, (s.y1 + s.y2) / 2)

/-- Function `_distance_between_parallel_lines` of
door_geometry_extraction.py (lines 768-804): perpendicular distance from the
midpoint of `seg2` to the infinite line through `seg1`, with the source's
division-by-zero guard returning `0.0` when the line coefficients
degenerate. -/
def distance_between_parallel_lines (seg1 seg2 : LineSegment) : ℝ :=
  let p := seg_midpoint seg2
  let a := seg1.y2 - seg1.y1
  let b := seg1.x1 - seg1.x2
  let c := seg1.x2 * seg1.y1 - seg1.x1 * seg1.y2
  let numerator := |a * p.1 + b * p.2 + c|
  let denominator := Real.sqrt (a ^ 2 + b ^ 2)
  if denominator = 0 then 0 else numerator / denominator

/-- Python's `math.atan2 y x`: the argument of the point `(x, y)`, in
`(-pi, pi]`. -/
def atan2 (y x : ℝ) : ℝ := Complex.arg ⟨x, y⟩

/-- Python's `math.degrees`. -/
def degrees (r : ℝ) : ℝ := r * 180 / Real.pi

/-- The grouping pass shared by `_cluster_values`
(material_pattern_detector.py lines 261-287) and `_cluster_angles`
(plankopf_parser.py lines 473-504): walk the sorted values, appending each to
the current group while it is within `tolerance` of the group's last member.
The current group is carried with its most recent member at the head and
reversed when emitted. -/
def cluster_groups (tolerance : ℝ) (current : List ℝ) : List ℝ → List (List ℝ)
  | [] => [current.reverse]
  | v :: vs =>
      match current with
      | [] => cluster_groups tolerance [v] vs
      | last :: _ =>
          if v - last ≤ tolerance then cluster_groups tolerance (v :: current) vs
          else current.reverse :: cluster_groups tolerance [v] vs

/-- Functions `_cluster_values` and `_cluster_angles`: cluster sorted values
by proximity into `(center, count)` pairs (center the mean), dropping
clusters with fewer than 2 members. -/
def cluster_values (values : List ℝ) (tolerance : ℝ) : List (ℝ × ℕ) :=
  match sort_by (fun a b : ℝ => a ≤ b) values with
  | [] => []
  | v :: vs =>
      ((cluster_groups tolerance [v] vs).map fun g =>
        ((g.sum / g.length : ℝ), g.length)).filter fun c => decide (2 ≤ c.2)

/-- Function `_estimate_line_spacing` of plankopf_parser.py (lines 507-537):
mean gap between the sorted perpendicular projections of the segment
midpoints onto the hatching direction, gaps of at most 0.1 filtered out. -/
def adjacent_diffs : List ℝ → List ℝ
  | a :: b :: t => (b - a) :: adjacent_diffs (b :: t)
  | _ => []

/-- Body of `_estimate_line_spacing` (the `len(distances) < 2` re-check of
the source is subsumed by the `len(lines) < 2` check, since one distance is
computed per line). -/
def estimate_line_spacing (lines : List ((ℝ × ℝ) × (ℝ × ℝ))) (dominant_angle : ℝ) :
    Option ℝ :=
  if lines.length < 2 then Option.none
  else
    let angle_rad := dominant_angle * Real.pi / 180
    let distances := lines.map fun l =>
      let mx := (l.1.1 + l.2.1) / 2
      let my := (l.1.2 + l.2.2) / 2
      |mx * Real.sin angle_rad - my * Real.cos angle_rad|
    let spacings := (adjacent_diffs (sort_by (fun a b : ℝ => a ≤ b) distances)).filter
      fun s => decide (s > 0.1)
    if spacings.length ≠ 0 then Option.some (spacings.sum / spacings.length)
    else Option.none

/-- The line-extraction loop of `analyze_drawing_pattern`
(material_pattern_detector.py lines 171-200).  Note the source's branch
order: when a pen position is set, ANY `"l"` item — including the
three-element form — yields the segment from the pen position to the item's
first point; the two-point form of an `"l"` item is used only when no pen
position is set. -/
def extract_drawing_lines : Option (ℝ × ℝ) → List DrawItem → List ((ℝ × ℝ) × (ℝ × ℝ))
  | _, [] => []
  | _, DrawItem.move p :: rest => extract_drawing_lines (Option.some p) rest
  | cur, DrawItem.line_to p :: rest =>
      match cur with
      | Option.some c => (c, p) :: extract_drawing_lines (Option.some p) rest
      | Option.none => extract_drawing_lines Option.none rest
  | cur, DrawItem.line_pair p q :: rest =>
      match cur with
      | Option.some c => (c, p) :: extract_drawing_lines (Option.some p) rest
      | Option.none => (p, q) :: extract_drawing_lines (Option.some q) rest
  | cur, DrawItem.rect _ _ _ _ :: rest => extract_drawing_lines cur rest
  | cur, DrawItem.other :: rest => extract_drawing_lines cur rest

/-- Function `analyze_drawing_pattern` of material_pattern_detector.py (lines
163-258).  The source's `total_length` accumulator is dead code (never read)
and is not modelled; the fill-color truthiness test `if fill_color:` is
presence of the RGB triple. -/
def analyze_drawing_pattern (drawing : Drawing) : PatternInfo :=
  let lines := extract_drawing_lines Option.none drawing.items
  if lines.length < 2 then
    match drawing.fill with
    | Option.some _ =>
        { pattern_type := PatternType.SOLID_FILL
          fill_color := drawing.fill
          stroke_color := drawing.color }
    | Option.none => { pattern_type := PatternType.NONE, stroke_color := drawing.color }
  else
    let angles := lines.filterMap fun l =>
      let dx := l.2.1 - l.1.1
      let dy := l.2.2 - l.1.2
      if Real.sqrt (dx * dx + dy * dy) < 0.1 then Option.none
      else Option.some (mod180 (degrees (atan2 dy dx)))
    if angles.isEmpty then { pattern_type := PatternType.NONE, stroke_color := drawing.color }
    else
      match cluster_values angles 15 with
      | [c] =>
          { pattern_type := PatternType.HATCHING
            stroke_color := drawing.color
            fill_color := drawing.fill
            hatching_angle := Option.some c.1
            line_count := lines.length }
      | [c1, c2] =>
          let ordered := if c2.2 > c1.2 then (c2, c1) else (c1, c2)
          { pattern_type := PatternType.CROSSHATCH
            stroke_color := drawing.color
            fill_color := drawing.fill
            hatching_angle := Option.some ordered.1.1
            secondary_angle := Option.some ordered.2.1
            line_count := lines.length }
      | _ =>
          { pattern_type := PatternType.HATCHING
            stroke_color := drawing.color
            fill_color := drawing.fill
            line_count := lines.length }

/-- Function `analyze_pattern` of plankopf_parser.py (lines 388-470).  Its
line-extraction loop reads only three-element `"l"` items (everything
shorter is skipped by the `len(item) < 3` guard) and keeps no pen
position. -/
def analyze_pattern (drawing : Drawing) : PatternInfo :=
  let lines := drawing.items.filterMap fun item =>
    match item with
    | DrawItem.line_pair p q => Option.some (p, q)
    | _ => Option.none
  if lines.length < 2 then
    match drawing.fill with
    | Option.some _ =>
        { pattern_type := PatternType.SOLID_FILL
          fill_color := drawing.fill
          stroke_color := drawing.color }
    | Option.none => { pattern_type := PatternType.NONE, stroke_color := drawing.color }
  else
    let angles := lines.filterMap fun l =>
      let dx := l.2.1 - l.1.1
      let dy := l.2.2 - l.1.2
      if dx = 0 ∧ dy = 0 then Option.none
      else Option.some (mod180 (degrees (atan2 dy dx)))
    if angles.isEmpty then { pattern_type := PatternType.NONE, stroke_color := drawing.color }
    else
      match cluster_values angles 10 with
      | [c] =>
          { pattern_type := PatternType.HATCHING
            stroke_color := drawing.color
            fill_color := drawing.fill
            hatching_angle := Option.some c.1
            hatching_spacing := estimate_line_spacing lines c.1
            line_count := lines.length }
      | [c1, c2] =>
          let ordered := if c2.2 > c1.2 then (c2, c1) else (c1, c2)
          { pattern_type := PatternType.CROSSHATCH
            stroke_color := drawing.color
            fill_color := drawing.fill
            hatching_angle := Option.some ordered.1.1
            secondary_angle := Option.some ordered.2.1
            line_count := lines.length }
      | _ =>
          { pattern_type := PatternType.HATCHING
            stroke_color := drawing.color
            fill_color := drawing.fill
            line_count := lines.length }

/-- The final loop state of `calculate_region_length` on a drawing's
items. -/
def region_state (items : List DrawItem) : RegionLengthState :=
  items.foldl region_length_step
    { xs := [], ys := [], total_length := 0, current_pos := Option.none }

/-- The longer bounding-box span of the collected coordinates, 0 when none
were collected — written from the amended claim for C5. -/
def region_span (st : RegionLengthState) : ℝ :=
  match st.xs, st.ys with
  | x :: xs, y :: ys =>
      max (list_max x xs - list_min x xs) (list_max y ys - list_min y ys)
  | _, _ => 0

/-- The nearest-unclaimed-geometry property, written from the claim for C2:
`g` at distance `d` is an unclaimed geometry of the list whose center lies
within the search radius of the label center, and no unclaimed geometry
within the radius is strictly closer. -/
def is_nearest_unclaimed (label_center : ℝ × ℝ) (matched : List String)
    (max_distance_px : ℝ) (geometries : List DoorGeometry)
    (g : DoorGeometry) (d : ℝ) : Prop :=
  g ∈ geometries ∧ g.geometry_id ∉ matched ∧
    d = center_distance label_center g.center ∧ d ≤ max_distance_px ∧
    ∀ g2 ∈ geometries, g2.geometry_id ∉ matched →
      center_distance label_center g2.center ≤ max_distance_px →
      d ≤ center_distance label_center g2.center

/-- The geometry ids claimed during the label-matching phase of the
associator. -/
def matched_geometry_ids (labels : List DoorLabel) (geometries : List DoorGeometry)
    (max_distance_px : ℝ) : List String :=
  (match_labels_loop (sort_by geometry_confidence_ge geometries) max_distance_px
    labels.enum [] [] []).2.1

/-- Relation between an input label and its state after the associator
returns, written from the amended claim for C4: either the label is
unchanged, or — only when its own fire rating was absent or empty — it
differs from the original solely in its `fire_rating` field, now a nonempty
value, and some fire-rating label of the input list lies strictly within
100px of it. -/
def backfill_rel (labels : List DoorLabel) (l lf : DoorLabel) : Prop :=
  lf = l ∨
    (opt_str_truthy l.fire_rating = false ∧ ∃ s, s ≠ "" ∧
      lf = { l with fire_rating := Option.some s } ∧
      ∃ other ∈ labels, other.pattern_type = "fire_rating" ∧
        center_distance (bbox_center other.bbox) (bbox_center l.bbox) < 100)

/-- Invariant of the dedup dictionary of `_extract_doors_from_page`
(door_geometry_extraction.py lines 377-391): an entry keyed by a door number
holds a record carrying exactly that nonempty, suffix-matched number, and an
entry keyed by a record id holds a record whose door number is Python-falsy
(absent or empty). -/
def dedup_entry_consistent (p : DedupKey × DoorExtraction) : Prop :=
  match p.1 with
  | Sum.inl n =>
      p.2.door_number = Option.some n ∧ n ≠ "" ∧ door_number_with_suffix_match n = true
  | Sum.inr _ => opt_str_truthy p.2.door_number = false

end

theorem mod180_eq_fract (a : ℝ) : mod180 a = 180 * Int.fract (a / 180) := by
  unfold mod180 Int.fract
  field_simp

theorem mod180_nonneg (a : ℝ) : 0 ≤ mod180 a := by
  rw [mod180_eq_fract]
  have h := Int.fract_nonneg (a / 180)
  linarith

theorem mod180_lt (a : ℝ) : mod180 a < 180 := by
  rw [mod180_eq_fract]
  have h := Int.fract_lt_one (a / 180)
  linarith

theorem color_distance_nonneg (c1 c2 : Option RGB) : 0 ≤ color_distance c1 c2 := by
  rcases c1 with _ | a <;> rcases c2 with _ | b <;>
    simp only [color_distance] <;> norm_num

theorem angle_distance_nonneg (a1 a2 : Option ℝ) : 0 ≤ angle_distance a1 a2 := by
  rcases a1 with _ | x <;> rcases a2 with _ | y <;>
    simp only [angle_distance] <;> try norm_num
  have hx0 := mod180_nonneg x
  have hx1 := mod180_lt x
  have hy0 := mod180_nonneg y
  have hy1 := mod180_lt y
  have habs : |mod180 x - mod180 y| ≤ 180 := by
    rw [abs_le]
    constructor <;> linarith
  have hnn : (0 : ℝ) ≤ |mod180 x - mod180 y| := abs_nonneg _
  linarith

/-- C8: the perpendicular point-to-line distance used by the rectangle-based
door detector is total: it is nonnegative on every pair of segments, and on a
degenerate first segment (coinciding endpoints, hence zero line coefficients
and a zero denominator) it returns the sentinel 0.0 rather than faulting. -/
theorem distance_between_parallel_lines_total (seg1 seg2 : LineSegment) :
    0 ≤ distance_between_parallel_lines seg1 seg2 ∧
      (seg1.x1 = seg1.x2 ∧ seg1.y1 = seg1.y2 →
        distance_between_parallel_lines seg1 seg2 = 0) := by
  simp only [distance_between_parallel_lines]
  constructor
  · split_ifs with h
    · exact le_refl 0
    · exact div_nonneg (abs_nonneg _) (Real.sqrt_nonneg _)
  · intro hdeg
    rw [hdeg.1, hdeg.2]
    simp

/-- C7 (amended): `convert_to_meters` returns
`length_px * 25.4 / dpi * N / 1000` with `N` parsed from a `1:N` scale string
and defaulting silently to 100 when the string is unparsable; at
`(100, "1:100", 72)` the result is 127/36, within 1/1000 of 3.528. -/
theorem convert_to_meters_formula :
    (∀ length_px page_dpi : ℚ, ∀ scale : String, ∀ n : ℕ,
        parse_scale scale = Option.some n →
        (convert_to_meters length_px scale page_dpi).1 =
          length_px * (127 / 5) / page_dpi * n / 1000) ∧
    (∀ length_px page_dpi : ℚ, ∀ scale : String,
        parse_scale scale = Option.none →
        (convert_to_meters length_px scale page_dpi).1 =
          length_px * (127 / 5) / page_dpi * 100 / 1000) ∧
    parse_scale "1:100" = Option.some 100 ∧
    (convert_to_meters 100 "1:100" 72).1 = 127 / 36 ∧
    |(127 : ℚ) / 36 - 3528 / 1000| < 1 / 1000 := by
  have h100 : parse_scale "1:100" = Option.some 100 := by decide
  refine ⟨?_, ?_, h100, ?_, ?_⟩
  · intro length_px page_dpi scale n h
    simp [convert_to_meters, h]
  · intro length_px page_dpi scale h
    simp [convert_to_meters, h]
  · simp [convert_to_meters, h100]
    norm_num
  · rw [abs_lt]
    constructor <;> norm_num

theorem pair_conf_eq {x y : ℝ} (h : x = y) :
    ((decide (x > 0.3), x) : Bool × ℝ) = (decide (y > 0.3), y) := by rw [h]

theorem patterns_match_eq_spec (p1 p2 : PatternInfo) (ct ta ts : ℝ) :
    patterns_match p1 p2 ct ta ts = patterns_match_spec p1 p2 ct ta ts := by
  have hsd := color_distance_nonneg p1.stroke_color p2.stroke_color
  have had := angle_distance_nonneg p1.hatching_angle p2.hatching_angle
  simp only [patterns_match, patterns_match_spec]
  by_cases h1 : p1.pattern_type ≠ p2.pattern_type ∧
      ¬ solid_hatch_pair p1.pattern_type p2.pattern_type
  · rw [if_pos h1, if_pos (Or.inl h1)]
  · rw [if_neg h1]
    by_cases h2 : color_distance p1.stroke_color p2.stroke_color > ct * 2
    · have h2a : color_distance p1.stroke_color p2.stroke_color > ct := by
        rcases le_or_lt ct 0 with h | h
        · linarith
        · linarith
      rw [if_pos ⟨h2a, h2⟩, if_pos (Or.inr (Or.inl h2))]
    · rw [if_neg (fun hc => h2 hc.2)]
      by_cases h3 : hatching_like p1 ∧
          angle_distance p1.hatching_angle p2.hatching_angle > ta * 2
      · have h3a : angle_distance p1.hatching_angle p2.hatching_angle > ta := by
          rcases le_or_lt ta 0 with h | h
          · linarith
          · linarith
        rw [if_pos ⟨h3.1, h3a, h3.2⟩, if_pos (Or.inr (Or.inr h3))]
      · rw [if_neg (fun hc => h3 ⟨hc.1, hc.2.2⟩),
          if_neg (show ¬ (_ ∨ _ ∨ _) by rintro (h | h | h); exacts [h1 h, h2 h, h3 h])]
        rcases hp1 : p1.hatching_spacing with _ | s1 <;>
          rcases hp2 : p2.hatching_spacing with _ | s2 <;>
          dsimp only <;> split_ifs <;>
          first
            | exact False.elim (by assumption)
            | exact pair_conf_eq (by norm_num)

/-- C1: `patterns_match` accepts exactly when the confidence — 1.0 times 0.5
for an over-tolerance stroke-color distance, times 0.7 for an over-tolerance
fill-color distance, times 0.5 for an over-tolerance hatching angle distance,
times 0.7 for an over-tolerance relative spacing difference — exceeds 0.3,
with hard rejection on differing pattern types (other than the
solid_fill/hatching pair), stroke distance beyond twice the tolerance, or
angle distance beyond twice the tolerance; and on two identical hatching
patterns (angle 45, stroke (1,0,0)) it returns (true, 1.0). -/
theorem patterns_match_confidence_rule :
    (∀ p1 p2 ct ta ts, patterns_match p1 p2 ct ta ts = patterns_match_spec p1 p2 ct ta ts) ∧
      patterns_match hatch45 hatch45 0.2 15 0.3 = (true, 1) := by
  constructor
  · exact patterns_match_eq_spec
  · have hm : mod180 45 = 45 := by
      unfold mod180
      have hf : ⌊(45 : ℝ) / 180⌋ = 0 := by
        rw [Int.floor_eq_zero_iff]
        constructor <;> norm_num
      rw [hf]
      norm_num
    have e1 : angle_distance (Option.some (45 : ℝ)) (Option.some 45) = 0 := by
      simp only [angle_distance, hm]
      norm_num
    have e0 : color_distance (Option.some ((1 : ℝ), (0 : ℝ), (0 : ℝ)))
        (Option.some ((1 : ℝ), (0 : ℝ), (0 : ℝ))) = 0 := by
      simp only [color_distance]
      norm_num
    simp only [patterns_match, hatch45, e0, e1, color_distance]
    norm_num [solid_hatch_pair, hatching_like]

/-- C10: both pattern analyzers only ever produce the pattern types none,
solid_fill, hatching and crosshatch; the dots and stipple members of the
PatternType enum are never produced, so no legend symbol or detected region
carries them. -/
theorem pattern_analysis_range (drawing : Drawing) :
    (analyze_pattern drawing).pattern_type ∈
        [PatternType.NONE, PatternType.SOLID_FILL, PatternType.HATCHING,
          PatternType.CROSSHATCH] ∧
      (analyze_drawing_pattern drawing).pattern_type ∈
        [PatternType.NONE, PatternType.SOLID_FILL, PatternType.HATCHING,
          PatternType.CROSSHATCH] := by
  constructor
  · simp only [analyze_pattern]
    split_ifs <;> first | (split <;> simp) | simp
  · simp only [analyze_drawing_pattern]
    split_ifs <;> first | (split <;> simp) | simp

theorem region_step_keeps (st : RegionLengthState) (item : DrawItem)
    (h1 : st.xs = [] → st.total_length = 0) (h2 : st.xs.length = st.ys.length) :
    ((region_length_step st item).xs = [] →
        (region_length_step st item).total_length = 0) ∧
      (region_length_step st item).xs.length = (region_length_step st item).ys.length := by
  rcases item with p | p | ⟨p, q⟩ | ⟨a, b, c, d⟩ | _
  · exact ⟨by simp [region_length_step], by simp [region_length_step, h2]⟩
  · rcases hc : st.current_pos with _ | c
    · simp only [region_length_step, hc]
      exact ⟨h1, h2⟩
    · exact ⟨by simp [region_length_step, hc], by simp [region_length_step, hc, h2]⟩
  · exact ⟨by simp [region_length_step], by simp [region_length_step, h2]⟩
  · exact ⟨by simp [region_length_step], by simp [region_length_step, h2]⟩
  · exact ⟨h1, h2⟩

theorem region_fold_keeps (items : List DrawItem) (st : RegionLengthState)
    (h1 : st.xs = [] → st.total_length = 0) (h2 : st.xs.length = st.ys.length) :
    ((items.foldl region_length_step st).xs = [] →
        (items.foldl region_length_step st).total_length = 0) ∧
      (items.foldl region_length_step st).xs.length =
        (items.foldl region_length_step st).ys.length := by
  induction items generalizing st with
  | nil => exact ⟨h1, h2⟩
  | cons it rest ih =>
      simp only [List.foldl_cons]
      obtain ⟨g1, g2⟩ := region_step_keeps st it h1 h2
      exact ih _ g1 g2

theorem region_state_inv (items : List DrawItem) :
    ((region_state items).xs = [] → (region_state items).total_length = 0) ∧
      (region_state items).xs.length = (region_state items).ys.length :=
  region_fold_keeps items _ (fun _ => rfl) rfl

/-- C5 (amended): the region length is always the longer bounding-box span of
the collected coordinates — for open polylines just as for closed shapes —
and 0 for a drawing that contributes no coordinates (the accumulated segment
length is only ever returned when it is 0, because every segment that adds
length also adds coordinates). -/
theorem calculate_region_length_is_span (drawing : Drawing) :
    calculate_region_length drawing = region_span (region_state drawing.items) := by
  obtain ⟨h1, h2⟩ := region_state_inv drawing.items
  show (match (region_state drawing.items).xs, (region_state drawing.items).ys with
    | x :: xs, y :: ys =>
        max (list_max x xs - list_min x xs) (list_max y ys - list_min y ys)
    | _, _ => (region_state drawing.items).total_length / 2) =
    region_span (region_state drawing.items)
  unfold region_span
  rcases hx : (region_state drawing.items).xs with _ | ⟨x, xs⟩ <;>
    rcases hy : (region_state drawing.items).ys with _ | ⟨y, ys⟩
  · simp [h1 hx]
  · simp [h1 hx]
  · rw [hx, hy] at h2
    simp at h2
  · rfl

/-- C5 counterexample: on an open L-shaped polyline with segments of lengths
10 and 5, the computed region length is the longer bounding-box span 10, not
the claimed sum of segment lengths 15. -/
theorem region_length_open_polyline :
    calculate_region_length open_polyline = 10 ∧
      segment_lengths_sum Option.none open_polyline.items = 15 ∧
      calculate_region_length open_polyline ≠
        segment_lengths_sum Option.none open_polyline.items := by
  have s100 : Real.sqrt 100 = 10 := by
    rw [show (100 : ℝ) = 10 ^ 2 by norm_num]
    exact Real.sqrt_sq (by norm_num)
  have s25 : Real.sqrt 25 = 5 := by
    rw [show (25 : ℝ) = 5 ^ 2 by norm_num]
    exact Real.sqrt_sq (by norm_num)
  have hval : calculate_region_length open_polyline = 10 := by
    norm_num [calculate_region_length, open_polyline, region_length_step,
      list_max, list_min, max_def, min_def]
  have hsum : segment_lengths_sum Option.none open_polyline.items = 15 := by
    norm_num [segment_lengths_sum, open_polyline, s100, s25]
  refine ⟨hval, hsum, ?_⟩
  rw [hval, hsum]
  norm_num

theorem upsert_entry_mem (r : DoorExtraction → DoorExtraction → Prop) (k : DedupKey)
    (v : DoorExtraction) (l : List (DedupKey × DoorExtraction)) :
    ∀ p ∈ upsert_entry r k v l, p = (k, v) ∨ p ∈ l := by
  induction l with
  | nil =>
      intro p hp
      simp only [upsert_entry, List.mem_singleton] at hp
      exact Or.inl hp
  | cons q rest ih =>
      obtain ⟨k0, v0⟩ := q
      intro p hp
      simp only [upsert_entry] at hp
      split_ifs at hp with h1 h2
      · rcases List.mem_cons.1 hp with h | h
        · exact Or.inl (by rw [h, h1])
        · exact Or.inr (List.mem_cons_of_mem _ h)
      · exact Or.inr hp
      · rcases List.mem_cons.1 hp with h | h
        · exact Or.inr (by rw [h]; exact List.mem_cons_self _ _)
        · rcases ih p h with h2 | h2
          · exact Or.inl h2
          · exact Or.inr (List.mem_cons_of_mem _ h2)

theorem upsert_entry_mem_of_ne (r : DoorExtraction → DoorExtraction → Prop)
    (k : DedupKey) (v : DoorExtraction) (l : List (DedupKey × DoorExtraction)) :
    ∀ p ∈ l, p.1 ≠ k → p ∈ upsert_entry r k v l := by
  induction l with
  | nil => intro p hp; exact absurd hp (List.not_mem_nil p)
  | cons q rest ih =>
      obtain ⟨k0, v0⟩ := q
      intro p hp hne
      simp only [upsert_entry]
      split_ifs with h1 h2
      · rcases List.mem_cons.1 hp with h | h
        · exact absurd (by rw [h] at hne; simpa using hne) (by simp [h1])
        · exact List.mem_cons_of_mem _ h
      · exact hp
      · rcases List.mem_cons.1 hp with h | h
        · exact h ▸ List.mem_cons_self _ _
        · exact List.mem_cons_of_mem _ (ih p h hne)

theorem upsert_entry_keys (r : DoorExtraction → DoorExtraction → Prop) (k : DedupKey)
    (v : DoorExtraction) (l : List (DedupKey × DoorExtraction)) :
    (upsert_entry r k v l).map Prod.fst =
      if k ∈ l.map Prod.fst then l.map Prod.fst else l.map Prod.fst ++ [k] := by
  induction l with
  | nil => simp [upsert_entry]
  | cons q rest ih =>
      obtain ⟨k0, v0⟩ := q
      simp only [upsert_entry]
      split_ifs with h1 h2 <;>
        simp_all [List.mem_cons, eq_comm] <;> split_ifs <;> simp_all

theorem upsert_entry_fresh (r : DoorExtraction → DoorExtraction → Prop) (k : DedupKey)
    (v : DoorExtraction) (l : List (DedupKey × DoorExtraction))
    (h : k ∉ l.map Prod.fst) : upsert_entry r k v l = l ++ [(k, v)] := by
  induction l with
  | nil => simp [upsert_entry]
  | cons q rest ih =>
      obtain ⟨k0, v0⟩ := q
      simp only [List.map_cons, List.mem_cons] at h
      push_neg at h
      simp only [upsert_entry, if_neg (Ne.symm h.1)]
      rw [ih h.2]
      simp

theorem upsert_entry_nodup (r : DoorExtraction → DoorExtraction → Prop) (k : DedupKey)
    (v : DoorExtraction) (l : List (DedupKey × DoorExtraction))
    (h : (l.map Prod.fst).Nodup) : ((upsert_entry r k v l).map Prod.fst).Nodup := by
  rw [upsert_entry_keys]
  split_ifs with hk
  · exact h
  · rw [← List.concat_eq_append]
    exact h.concat hk

theorem upsert_entry_value_at (r : DoorExtraction → DoorExtraction → Prop)
    (k : DedupKey) (v : DoorExtraction) (l : List (DedupKey × DoorExtraction))
    (hnd : (l.map Prod.fst).Nodup) (w : DoorExtraction) (hw : (k, w) ∈ l) :
    ((if r w v then ((k, v) : DedupKey × DoorExtraction) else (k, w)) ∈
        upsert_entry r k v l) ∧
      ∀ p ∈ upsert_entry r k v l, p.1 = k →
        p = (if r w v then ((k, v) : DedupKey × DoorExtraction) else (k, w)) := by
  induction l with
  | nil => exact absurd hw (List.not_mem_nil _)
  | cons q rest ih =>
      obtain ⟨k0, v0⟩ := q
      simp only [List.map_cons, List.nodup_cons] at hnd
      by_cases h1 : k0 = k
      · have hw0 : w = v0 := by
          rcases List.mem_cons.1 hw with h | h
          · exact (Prod.ext_iff.1 h).2
          · exact absurd (List.mem_map_of_mem Prod.fst h) (h1 ▸ hnd.1)
        subst hw0
        simp only [upsert_entry, if_pos h1]
        constructor
        · split_ifs with h2
          · rw [← h1]
            exact List.mem_cons_self _ _
          · rw [← h1]
            exact List.mem_cons_self _ _
        · intro p hp hpk
          split_ifs with h2 <;> split_ifs at hp with h3 <;> try exact absurd h2 h3
          all_goals {
            rcases List.mem_cons.1 hp with h | h
            · rw [h, h1]
            · exact absurd (hpk ▸ List.mem_map_of_mem Prod.fst h) (h1 ▸ hnd.1) }
      · have hw1 : (k, w) ∈ rest := by
          rcases List.mem_cons.1 hw with h | h
          · injection h with hk hv
            exact absurd hk.symm h1
          · exact h
        obtain ⟨ihp, ihu⟩ := ih hnd.2 hw1
        simp only [upsert_entry, if_neg h1]
        constructor
        · exact List.mem_cons_of_mem _ ihp
        · intro p hp hpk
          rcases List.mem_cons.1 hp with h | h
          · exact absurd (show k0 = k by rw [h] at hpk; exact hpk) h1
          · exact ihu p h hpk

theorem pair_mem_nodup_unique (l : List (DedupKey × DoorExtraction))
    (hnd : (l.map Prod.fst).Nodup) (k : DedupKey) (a b : DoorExtraction) :
    (k, a) ∈ l → (k, b) ∈ l → a = b := by
  induction l with
  | nil => intro h; exact absurd h (List.not_mem_nil _)
  | cons q rest ih =>
      obtain ⟨k0, v0⟩ := q
      simp only [List.map_cons, List.nodup_cons] at hnd
      intro ha hb
      rcases List.mem_cons.1 ha with h | h <;> rcases List.mem_cons.1 hb with h2 | h2
      · injection h with hk hv
        injection h2 with hk2 hv2
        rw [hv, hv2]
      · injection h with hk hv
        exact absurd (hk ▸ List.mem_map_of_mem Prod.fst h2) hnd.1
      · injection h2 with hk2 hv2
        exact absurd (hk2 ▸ List.mem_map_of_mem Prod.fst h) hnd.1
      · exact ih hnd.2 h h2

theorem filter_key_nil (l : List (DedupKey × DoorExtraction)) (k : DedupKey)
    (h : k ∉ l.map Prod.fst) :
    l.filter (fun p => decide (p.1 = k)) = [] := by
  induction l with
  | nil => rfl
  | cons q rest ih =>
      simp only [List.map_cons, List.mem_cons] at h
      push_neg at h
      simp only [List.filter_cons]
      rw [if_neg (by simpa using Ne.symm h.1)]
      exact ih h.2

theorem filter_key_singleton (l : List (DedupKey × DoorExtraction))
    (hnd : (l.map Prod.fst).Nodup) (k : DedupKey) (v : DoorExtraction)
    (hv : (k, v) ∈ l) :
    l.filter (fun p => decide (p.1 = k)) = [(k, v)] := by
  induction l with
  | nil => exact absurd hv (List.not_mem_nil _)
  | cons q rest ih =>
      obtain ⟨k0, v0⟩ := q
      simp only [List.map_cons, List.nodup_cons] at hnd
      rcases List.mem_cons.1 hv with h | h
      · injection h with hk hv0
        simp only [List.filter_cons]
        rw [if_pos (by simp [hk])]
        rw [filter_key_nil rest k (hk ▸ hnd.1)]
        rw [hk, hv0]
      · have hk0 : k0 ≠ k := by
          intro he
          exact hnd.1 (he ▸ List.mem_map_of_mem Prod.fst h)
        simp only [List.filter_cons]
        rw [if_neg (by simpa using hk0)]
        exact ih hnd.2 h

theorem dedup_step_mem (acc : List (DedupKey × DoorExtraction)) (d : DoorExtraction) :
    ∀ p ∈ dedup_step acc d, p ∈ acc ∨ p.2 = d := by
  unfold dedup_step upsert_keep_max upsert_plain
  rcases hdn : d.door_number with _ | m <;> dsimp only
  · intro p hp
    rcases upsert_entry_mem _ _ _ _ p hp with h | h
    · right
      rw [h]
    · left
      exact h
  · split_ifs with h1 h2
    · intro p hp
      rcases upsert_entry_mem _ _ _ _ p hp with h | h
      · right
        rw [h]
      · left
        exact h
    · intro p hp
      left
      exact hp
    · intro p hp
      rcases upsert_entry_mem _ _ _ _ p hp with h | h
      · right
        rw [h]
      · left
        exact h

theorem dedup_step_inr_mem (acc : List (DedupKey × DoorExtraction)) (d : DoorExtraction)
    (j : ℕ) (w : DoorExtraction) (hp : (Sum.inr j, w) ∈ dedup_step acc d) :
    (Sum.inr j, w) ∈ acc ∨ (w = d ∧ j = d.extraction_id) := by
  revert hp
  unfold dedup_step upsert_keep_max upsert_plain
  rcases hdn : d.door_number with _ | m <;> dsimp only
  · intro hp
    rcases upsert_entry_mem _ _ _ _ _ hp with h | h
    · right
      injection h with hk hv
      exact ⟨hv, (Sum.inr.injEq _ _ ▸ hk : j = d.extraction_id)⟩
    · left
      exact h
  · split_ifs with h1 h2
    · intro hp
      rcases upsert_entry_mem _ _ _ _ _ hp with h | h
      · exact absurd (congrArg Prod.fst h) (by simp)
      · left
        exact h
    · intro hp
      left
      exact hp
    · intro hp
      rcases upsert_entry_mem _ _ _ _ _ hp with h | h
      · right
        injection h with hk hv
        exact ⟨hv, (Sum.inr.injEq _ _ ▸ hk : j = d.extraction_id)⟩
      · left
        exact h

theorem dedup_step_keeps_inr (acc : List (DedupKey × DoorExtraction)) (d : DoorExtraction)
    (j : ℕ) (w : DoorExtraction) (hm : (Sum.inr j, w) ∈ acc)
    (hne : d.extraction_id ≠ j) : (Sum.inr j, w) ∈ dedup_step acc d := by
  unfold dedup_step upsert_keep_max upsert_plain
  rcases hdn : d.door_number with _ | m <;> dsimp only
  · exact upsert_entry_mem_of_ne _ _ _ _ _ hm (fun he => hne (Sum.inr.inj he).symm)
  · split_ifs with h1 h2
    · exact upsert_entry_mem_of_ne _ _ _ _ _ hm (by simp)
    · exact hm
    · exact upsert_entry_mem_of_ne _ _ _ _ _ hm (fun he => hne (Sum.inr.inj he).symm)

theorem dedup_step_keeps_inl_of_ne (acc : List (DedupKey × DoorExtraction))
    (d : DoorExtraction) (n : String) (w : DoorExtraction) (hm : (Sum.inl n, w) ∈ acc)
    (hne : d.door_number ≠ Option.some n) : (Sum.inl n, w) ∈ dedup_step acc d := by
  unfold dedup_step upsert_keep_max upsert_plain
  rcases hdn : d.door_number with _ | m <;> dsimp only
  · exact upsert_entry_mem_of_ne _ _ _ _ _ hm (by simp)
  · have hmn : m ≠ n := fun he => hne (by rw [hdn, he])
    split_ifs with h1 h2
    · exact upsert_entry_mem_of_ne _ _ _ _ _ hm (fun he => hmn (Sum.inl.inj he).symm)
    · exact hm
    · exact upsert_entry_mem_of_ne _ _ _ _ _ hm (by simp)

theorem dedup_fold_mem (ds : List DoorExtraction) :
    ∀ acc, ∀ p ∈ ds.foldl dedup_step acc, p ∈ acc ∨ p.2 ∈ ds := by
  induction ds with
  | nil =>
      intro acc p hp
      left
      exact hp
  | cons d rest ih =>
      intro acc p hp
      simp only [List.foldl_cons] at hp
      rcases ih _ p hp with h | h
      · rcases dedup_step_mem acc d p h with h2 | h2
        · left
          exact h2
        · right
          rw [h2]
          exact List.mem_cons_self _ _
      · right
        exact List.mem_cons_of_mem _ h

theorem page_filter_dedup_mem (doors : List DoorExtraction) (min_confidence : ℝ) :
    ∀ d ∈ page_filter_dedup doors min_confidence,
      d ∈ doors ∧ min_confidence ≤ d.confidence := by
  intro d hd
  unfold page_filter_dedup dedup_doors at hd
  obtain ⟨p, hp, hps⟩ := List.mem_map.1 hd
  rcases dedup_fold_mem _ [] p hp with h | h
  · exact absurd h (List.not_mem_nil p)
  · obtain ⟨hmem, hconf⟩ := List.mem_filter.1 h
    exact ⟨hps ▸ hmem, hps ▸ of_decide_eq_true hconf⟩

theorem attr_width_frame (e : DoorExtraction) (sc : Option ScaleContext) :
    (attr_width_update e sc).label = e.label ∧
      (attr_width_update e sc).geometry = e.geometry ∧
      (attr_width_update e sc).extraction_method = e.extraction_method ∧
      (attr_width_update e sc).confidence = e.confidence ∧
      (attr_width_update e sc).door_number = e.door_number := by
  unfold attr_width_update
  split_ifs with h1 h2
  · rcases hl : e.label with _ | l <;> simp [hl]
  · rcases hg : e.geometry with _ | g <;> rcases hs : sc with _ | s <;> simp [hg, hs]
  · simp

theorem attr_label_frame (e : DoorExtraction) :
    (attr_label_update e).label = e.label ∧
      (attr_label_update e).geometry = e.geometry ∧
      (attr_label_update e).extraction_method = e.extraction_method ∧
      (attr_label_update e).confidence = e.confidence := by
  unfold attr_label_update
  rcases hl : e.label with _ | l
  · simp [hl]
  · by_cases h1 : opt_str_truthy l.door_type = true <;>
      by_cases h2 : opt_str_truthy l.fire_rating = true <;>
      simp [hl, h1, h2]

theorem attr_category_frame (e : DoorExtraction) :
    (attr_category_update e).label = e.label ∧
      (attr_category_update e).geometry = e.geometry ∧
      (attr_category_update e).extraction_method = e.extraction_method ∧
      (attr_category_update e).confidence = e.confidence ∧
      (attr_category_update e).door_number = e.door_number := by
  unfold attr_category_update
  split_ifs with h1
  · rcases hf : e.fire_rating with _ | fr <;> simp only [hf] <;> (try split_ifs) <;> simp
  · simp

theorem attr_scale_frame (e : DoorExtraction) (sc : Option ScaleContext) :
    (attr_scale_update e sc).label = e.label ∧
      (attr_scale_update e sc).geometry = e.geometry ∧
      (attr_scale_update e sc).extraction_method = e.extraction_method ∧
      (attr_scale_update e sc).confidence = e.confidence ∧
      (attr_scale_update e sc).door_number = e.door_number := by
  unfold attr_scale_update
  rcases sc with _ | s <;> simp

theorem extract_attributes_frame (e : DoorExtraction) (sc : Option ScaleContext) :
    (extract_door_attributes e sc).label = e.label ∧
      (extract_door_attributes e sc).geometry = e.geometry ∧
      (extract_door_attributes e sc).extraction_method = e.extraction_method ∧
      (extract_door_attributes e sc).confidence = e.confidence := by
  unfold extract_door_attributes
  obtain ⟨w1, w2, w3, w4, -⟩ := attr_width_frame e sc
  obtain ⟨l1, l2, l3, l4⟩ := attr_label_frame (attr_width_update e sc)
  obtain ⟨c1, c2, c3, c4, -⟩ := attr_category_frame (attr_label_update (attr_width_update e sc))
  obtain ⟨s1, s2, s3, s4, -⟩ :=
    attr_scale_frame (attr_category_update (attr_label_update (attr_width_update e sc))) sc
  exact ⟨by rw [s1, c1, l1, w1], by rw [s2, c2, l2, w2], by rw [s3, c3, l3, w3],
    by rw [s4, c4, l4, w4]⟩

theorem pair_eq_parts {A B : Type} {a c : A} {b d : B} (h : (a, b) = (c, d)) :
    a = c ∧ b = d := by
  injection h with h1 h2
  exact ⟨h1, h2⟩

theorem find_nearest_fold_spec (lc : ℝ × ℝ) (matched : List String) (maxd : ℝ)
    (gs : List DoorGeometry) :
    ∀ acc : Option (DoorGeometry × ℝ),
      (gs.foldl (find_nearest_step lc matched maxd) acc = Option.none →
        acc = Option.none ∧
          ∀ g2 ∈ gs, g2.geometry_id ∉ matched →
            ¬ center_distance lc g2.center ≤ maxd) ∧
      (∀ g d, gs.foldl (find_nearest_step lc matched maxd) acc = Option.some (g, d) →
        (acc = Option.some (g, d) ∨
            (g ∈ gs ∧ g.geometry_id ∉ matched ∧ d = center_distance lc g.center ∧
              d ≤ maxd)) ∧
          (∀ g2 ∈ gs, g2.geometry_id ∉ matched →
            center_distance lc g2.center ≤ maxd →
            d ≤ center_distance lc g2.center) ∧
          (∀ g0 d0, acc = Option.some (g0, d0) → d ≤ d0)) := by
  induction gs with
  | nil =>
      intro acc
      simp only [List.foldl_nil]
      constructor
      · intro h
        exact ⟨h, fun g2 hg2 => absurd hg2 (List.not_mem_nil _)⟩
      · intro g d h
        refine ⟨Or.inl h, fun g2 hg2 => absurd hg2 (List.not_mem_nil _), ?_⟩
        intro g0 d0 h0
        rw [h] at h0
        have hp := Option.some.inj h0
        exact le_of_eq (pair_eq_parts hp).2
  | cons g1 rest ih =>
      intro acc
      simp only [List.foldl_cons]
      by_cases hm : g1.geometry_id ∈ matched
      · have hstep : find_nearest_step lc matched maxd acc g1 = acc := by
          simp [find_nearest_step, hm]
        rw [hstep]
        obtain ⟨ih1, ih2⟩ := ih acc
        constructor
        · intro h
          obtain ⟨ha, hall⟩ := ih1 h
          refine ⟨ha, ?_⟩
          intro g2 hg2 hum
          rcases List.mem_cons.1 hg2 with h2 | h2
          · exact absurd (by rw [h2]; exact hm) hum
          · exact hall g2 h2 hum
        · intro g d h
          obtain ⟨hA, hB, hC⟩ := ih2 g d h
          refine ⟨?_, ?_, hC⟩
          · rcases hA with h2 | h2
            · exact Or.inl h2
            · exact Or.inr ⟨List.mem_cons_of_mem _ h2.1, h2.2⟩
          · intro g2 hg2 hum hle
            rcases List.mem_cons.1 hg2 with h2 | h2
            · exact absurd (by rw [h2]; exact hm) hum
            · exact hB g2 h2 hum hle
      · rcases hacc : acc with _ | ⟨g0, d0⟩
        · by_cases hd : center_distance lc g1.center ≤ maxd
          · have hstep : find_nearest_step lc matched maxd Option.none g1 =
                Option.some (g1, center_distance lc g1.center) := by
              simp [find_nearest_step, hm, hd]
            rw [hstep]
            obtain ⟨ih1, ih2⟩ := ih (Option.some (g1, center_distance lc g1.center))
            constructor
            · intro h
              obtain ⟨ha, -⟩ := ih1 h
              exact absurd ha (by simp)
            · intro g d h
              obtain ⟨hA, hB, hC⟩ := ih2 g d h
              have hCd : d ≤ center_distance lc g1.center := hC g1 _ rfl
              refine ⟨?_, ?_, ?_⟩
              · rcases hA with h2 | h2
                · have hp := Option.some.inj h2
                  refine Or.inr ⟨?_, ?_, ?_, ?_⟩
                  · rw [← (pair_eq_parts hp).1]
                    exact List.mem_cons_self _ _
                  · rw [← (pair_eq_parts hp).1]
                    exact hm
                  · rw [← (pair_eq_parts hp).2, ← (pair_eq_parts hp).1]
                  · rw [← (pair_eq_parts hp).2]
                    exact hd
                · exact Or.inr ⟨List.mem_cons_of_mem _ h2.1, h2.2⟩
              · intro g2 hg2 hum hle
                rcases List.mem_cons.1 hg2 with h2 | h2
                · rw [h2]
                  exact hCd
                · exact hB g2 h2 hum hle
              · intro g0 d0 h0
                exact absurd h0 (by simp)
          · have hstep : find_nearest_step lc matched maxd Option.none g1 =
                Option.none := by
              simp [find_nearest_step, hm, hd]
            rw [hstep]
            obtain ⟨ih1, ih2⟩ := ih Option.none
            constructor
            · intro h
              obtain ⟨-, hall⟩ := ih1 h
              refine ⟨rfl, ?_⟩
              intro g2 hg2 hum
              rcases List.mem_cons.1 hg2 with h2 | h2
              · rw [h2]
                exact hd
              · exact hall g2 h2 hum
            · intro g d h
              obtain ⟨hA, hB, hC⟩ := ih2 g d h
              refine ⟨?_, ?_, ?_⟩
              · rcases hA with h2 | h2
                · exact absurd h2 (by simp)
                · exact Or.inr ⟨List.mem_cons_of_mem _ h2.1, h2.2⟩
              · intro g2 hg2 hum hle
                rcases List.mem_cons.1 hg2 with h2 | h2
                · rw [h2] at hle
                  exact absurd hle hd
                · exact hB g2 h2 hum hle
              · intro g0 d0 h0
                exact absurd h0 (by simp)
        · by_cases hd : center_distance lc g1.center < d0 ∧
              center_distance lc g1.center ≤ maxd
          · have hstep : find_nearest_step lc matched maxd (Option.some (g0, d0)) g1 =
                Option.some (g1, center_distance lc g1.center) := by
              simp only [find_nearest_step, if_neg hm]
              rw [if_pos hd]
            rw [hstep]
            obtain ⟨ih1, ih2⟩ := ih (Option.some (g1, center_distance lc g1.center))
            constructor
            · intro h
              obtain ⟨ha, -⟩ := ih1 h
              exact absurd ha (by simp)
            · intro g d h
              obtain ⟨hA, hB, hC⟩ := ih2 g d h
              have hCd : d ≤ center_distance lc g1.center := hC g1 _ rfl
              refine ⟨?_, ?_, ?_⟩
              · rcases hA with h2 | h2
                · have hp := Option.some.inj h2
                  refine Or.inr ⟨?_, ?_, ?_, ?_⟩
                  · rw [← (pair_eq_parts hp).1]
                    exact List.mem_cons_self _ _
                  · rw [← (pair_eq_parts hp).1]
                    exact hm
                  · rw [← (pair_eq_parts hp).2, ← (pair_eq_parts hp).1]
                  · rw [← (pair_eq_parts hp).2]
                    exact hd.2
                · exact Or.inr ⟨List.mem_cons_of_mem _ h2.1, h2.2⟩
              · intro g2 hg2 hum hle
                rcases List.mem_cons.1 hg2 with h2 | h2
                · rw [h2]
                  exact hCd
                · exact hB g2 h2 hum hle
              · intro g0x d0x h0
                have hp := Option.some.inj h0
                have hd0 : d0 = d0x := (pair_eq_parts hp).2
                rw [← hd0]
                have := hd.1
                linarith
          · have hstep : find_nearest_step lc matched maxd (Option.some (g0, d0)) g1 =
                Option.some (g0, d0) := by
              simp only [find_nearest_step, if_neg hm]
              rw [if_neg hd]
            rw [hstep]
            obtain ⟨ih1, ih2⟩ := ih (Option.some (g0, d0))
            constructor
            · intro h
              obtain ⟨ha, -⟩ := ih1 h
              exact absurd ha (by simp)
            · intro g d h
              obtain ⟨hA, hB, hC⟩ := ih2 g d h
              have hCd0 : d ≤ d0 := hC g0 d0 rfl
              refine ⟨?_, ?_, ?_⟩
              · rcases hA with h2 | h2
                · exact Or.inl h2
                · exact Or.inr ⟨List.mem_cons_of_mem _ h2.1, h2.2⟩
              · intro g2 hg2 hum hle
                rcases List.mem_cons.1 hg2 with h2 | h2
                · push_neg at hd
                  rw [h2] at hle ⊢
                  have hnlt : ¬ center_distance lc g1.center < d0 := fun hlt => by
                    have := hd hlt
                    linarith
                  have := not_lt.1 hnlt
                  linarith
                · exact hB g2 h2 hum hle
              · intro g0x d0x h0
                have hp := Option.some.inj h0
                have hd0 : d0 = d0x := (pair_eq_parts hp).2
                rw [← hd0]
                exact hCd0

theorem find_nearest_some_spec (lc : ℝ × ℝ) (matched : List String) (maxd : ℝ)
    (gs : List DoorGeometry) (g : DoorGeometry) (d : ℝ)
    (h : find_nearest lc matched maxd gs = Option.some (g, d)) :
    is_nearest_unclaimed lc matched maxd gs g d := by
  obtain ⟨hA, hB, -⟩ := ((find_nearest_fold_spec lc matched maxd gs) Option.none).2 g d h
  rcases hA with h2 | h2
  · exact absurd h2 (by simp)
  · exact ⟨h2.1, h2.2.1, h2.2.2.1, h2.2.2.2, hB⟩

theorem find_nearest_none_spec (lc : ℝ × ℝ) (matched : List String) (maxd : ℝ)
    (gs : List DoorGeometry)
    (h : find_nearest lc matched maxd gs = Option.none) :
    ∀ g2 ∈ gs, g2.geometry_id ∉ matched → ¬ center_distance lc g2.center ≤ maxd :=
  (((find_nearest_fold_spec lc matched maxd gs) Option.none).1 h).2

theorem match_labels_loop_mem (gs : List DoorGeometry) (maxd : ℝ) :
    ∀ (enum : List (ℕ × DoorLabel)) (doors : List DoorExtraction)
      (mg : List String) (ml : List ℕ),
      ∀ d ∈ (match_labels_loop gs maxd enum doors mg ml).1,
        d ∈ doors ∨ ∃ i l g, d = make_matched_door i l g := by
  intro enum
  induction enum with
  | nil =>
      intro doors mg ml d hd
      exact Or.inl hd
  | cons p rest ih =>
      obtain ⟨i, label⟩ := p
      intro doors mg ml d hd
      simp only [match_labels_loop] at hd
      rcases hfn : find_nearest (bbox_center label.bbox) mg maxd gs with _ | ⟨g, dist⟩ <;>
        rw [hfn] at hd <;> dsimp only at hd
      · exact ih doors mg ml d hd
      · rcases ih _ _ _ d hd with h | h
        · rcases List.mem_append.1 h with h2 | h2
          · exact Or.inl h2
          · exact Or.inr ⟨i, label, g, List.mem_singleton.1 h2⟩
        · exact Or.inr h

theorem geometry_only_doors_mem (gs : List DoorGeometry) :
    ∀ (mg : List String) (b : ℕ) (g : DoorGeometry), g ∈ gs → g.geometry_id ∉ mg →
      ∃ i, make_geometry_only_door i g ∈ geometry_only_doors gs mg b := by
  induction gs with
  | nil =>
      intro mg b g hg
      exact absurd hg (List.not_mem_nil _)
  | cons g1 rest ih =>
      intro mg b g hg hum
      rcases List.mem_cons.1 hg with h | h
      · have hun : g1.geometry_id ∉ mg := by rw [← h]; exact hum
        refine ⟨b, ?_⟩
        simp only [geometry_only_doors, if_neg hun]
        rw [h]
        exact List.mem_cons_self _ _
      · obtain ⟨i, hi⟩ := ih mg (b + 1) g h hum
        refine ⟨i, ?_⟩
        simp only [geometry_only_doors]
        split_ifs with hc
        · exact hi
        · exact List.mem_cons_of_mem _ hi

theorem geometry_only_doors_shape (gs : List DoorGeometry) :
    ∀ (mg : List String) (b : ℕ), ∀ d ∈ geometry_only_doors gs mg b,
      ∃ i g, g ∈ gs ∧ g.geometry_id ∉ mg ∧ d = make_geometry_only_door i g := by
  induction gs with
  | nil =>
      intro mg b d hd
      exact absurd hd (List.not_mem_nil _)
  | cons g1 rest ih =>
      intro mg b d hd
      simp only [geometry_only_doors] at hd
      split_ifs at hd with hc
      · obtain ⟨i, g, hg, hu, hf⟩ := ih mg (b + 1) d hd
        exact ⟨i, g, List.mem_cons_of_mem _ hg, hu, hf⟩
      · rcases List.mem_cons.1 hd with h | h
        · exact ⟨b, g1, List.mem_cons_self _ _, hc, h⟩
        · obtain ⟨i, g, hg, hu, hf⟩ := ih mg (b + 1) d h
          exact ⟨i, g, List.mem_cons_of_mem _ hg, hu, hf⟩

theorem label_only_step_shape (ml : List ℕ) (b : ℕ)
    (st : List DoorLabel × List DoorExtraction) (i : ℕ) :
    ∀ d ∈ (label_only_step ml b st i).2,
      d ∈ st.2 ∨ ∃ j l, d = make_label_only_door j l := by
  unfold label_only_step
  rcases hg : st.1.get? i with _ | label
  · intro d hd
    exact Or.inl hd
  · dsimp only
    split_ifs with h1 h2 h3 <;> intro d hd <;> (try dsimp only at hd) <;>
      first
        | exact Or.inl hd
        | (rcases List.mem_append.1 hd with h | h
           · exact Or.inl h
           · exact Or.inr ⟨_, _, List.mem_singleton.1 h⟩)

theorem label_only_fold_shape (ml : List ℕ) (b : ℕ) (idxs : List ℕ) :
    ∀ st, ∀ d ∈ (idxs.foldl (label_only_step ml b) st).2,
      d ∈ st.2 ∨ ∃ j l, d = make_label_only_door j l := by
  induction idxs with
  | nil =>
      intro st d hd
      exact Or.inl hd
  | cons i rest ih =>
      intro st d hd
      simp only [List.foldl_cons] at hd
      rcases ih _ d hd with h | h
      · exact label_only_step_shape ml b st i d h
      · exact Or.inr h

theorem associate_shape (labels : List DoorLabel) (geometries : List DoorGeometry)
    (maxd : ℝ) :
    ∀ d ∈ associate_labels_with_geometries labels geometries maxd,
      (∃ i l g, d = make_matched_door i l g) ∨
        (∃ i g, g ∈ sort_by geometry_confidence_ge geometries ∧
          g.geometry_id ∉ matched_geometry_ids labels geometries maxd ∧
          d = make_geometry_only_door i g) ∨
        (∃ i l, d = make_label_only_door i l) := by
  intro d hd
  simp only [associate_labels_with_geometries, associate_full] at hd
  rcases List.mem_append.1 hd with h | h
  · rcases List.mem_append.1 h with h2 | h2
    · rcases match_labels_loop_mem _ _ _ _ _ _ d h2 with h3 | h3
      · exact absurd h3 (List.not_mem_nil d)
      · exact Or.inl h3
    · obtain ⟨i, g, hg, hu, hform⟩ := geometry_only_doors_shape _ _ _ d h2
      exact Or.inr (Or.inl ⟨i, g, hg, hu, hform⟩)
  · rcases label_only_fold_shape _ _ _ _ d h with h3 | h3
    · exact absurd h3 (List.not_mem_nil d)
    · exact Or.inr (Or.inr h3)

/-- C9: every record the associator emits carries a label, a geometry or
both, according to its extraction method — and records in the final per-page
list (after attribute extraction, confidence filtering and deduplication)
keep that invariant. -/
theorem door_presence_invariant :
    (∀ (labels : List DoorLabel) (geometries : List DoorGeometry) (maxd : ℝ),
        ∀ d ∈ associate_labels_with_geometries labels geometries maxd,
          (d.extraction_method = "label_geometry_match" →
            d.label.isSome ∧ d.geometry.isSome) ∧
          (d.extraction_method = "geometry_only" → d.geometry.isSome) ∧
          (d.extraction_method = "label_only" → d.label.isSome) ∧
          (d.label.isSome ∨ d.geometry.isSome)) ∧
      (∀ (labels : List DoorLabel) (geometries : List DoorGeometry)
          (sc : Option ScaleContext) (radius minc : ℝ),
        ∀ d ∈ extract_doors_stage34 labels geometries sc radius minc,
          (d.extraction_method = "label_geometry_match" →
            d.label.isSome ∧ d.geometry.isSome) ∧
          (d.extraction_method = "geometry_only" → d.geometry.isSome) ∧
          (d.extraction_method = "label_only" → d.label.isSome) ∧
          (d.label.isSome ∨ d.geometry.isSome)) := by
  have hassoc : ∀ (labels : List DoorLabel) (geometries : List DoorGeometry) (maxd : ℝ),
      ∀ d ∈ associate_labels_with_geometries labels geometries maxd,
        (d.extraction_method = "label_geometry_match" →
          d.label.isSome ∧ d.geometry.isSome) ∧
        (d.extraction_method = "geometry_only" → d.geometry.isSome) ∧
        (d.extraction_method = "label_only" → d.label.isSome) ∧
        (d.label.isSome ∨ d.geometry.isSome) := by
    intro labels geometries maxd d hd
    rcases associate_shape labels geometries maxd d hd with h | h | h
    · obtain ⟨i, l, g, rfl⟩ := h
      simp [make_matched_door]
    · obtain ⟨i, g, -, -, rfl⟩ := h
      simp [make_geometry_only_door]
    · obtain ⟨i, l, rfl⟩ := h
      simp [make_label_only_door]
  refine ⟨hassoc, ?_⟩
  intro labels geometries sc radius minc d hd
  unfold extract_doors_stage34 at hd
  obtain ⟨hmem, -⟩ := page_filter_dedup_mem _ _ d hd
  obtain ⟨d0, hd0, hde⟩ := List.mem_map.1 hmem
  obtain ⟨f1, f2, f3, -⟩ := extract_attributes_frame d0 sc
  obtain ⟨p1, p2, p3, p4⟩ := hassoc labels geometries radius d0 hd0
  rw [← hde] at *
  exact ⟨fun h => by
      rw [f1, f2]
      exact p1 (by rw [← f3]; exact h),
    fun h => by
      rw [f2]
      exact p2 (by rw [← f3]; exact h),
    fun h => by
      rw [f1]
      exact p3 (by rw [← f3]; exact h),
    by rw [f1, f2]; exact p4⟩

/-- C2: the associator pairs each label with the nearest not-yet-claimed
geometry within the search radius by Euclidean center distance (the
`find_nearest` scan is exactly nearest-unclaimed-within-radius selection);
every emitted label_geometry_match record has confidence equal to the
minimum of the label and geometry confidences; every geometry left unclaimed
yields a geometry_only record with confidence times 0.7 and a missing-label
warning; and one label centered at (110,105) with one geometry centered at
(115,105) and radius 150 produces exactly one label_geometry_match record,
at distance 5. -/
theorem associator_matching_rule :
    (∀ (lc : ℝ × ℝ) (matched : List String) (maxd : ℝ) (gs : List DoorGeometry)
        (g : DoorGeometry) (d : ℝ),
        find_nearest lc matched maxd gs = Option.some (g, d) →
          is_nearest_unclaimed lc matched maxd gs g d) ∧
      (∀ (labels : List DoorLabel) (geometries : List DoorGeometry) (maxd : ℝ),
        ∀ d ∈ associate_labels_with_geometries labels geometries maxd,
          d.extraction_method = "label_geometry_match" →
            ∃ l g, d.label = Option.some l ∧ d.geometry = Option.some g ∧
              d.confidence = min l.confidence g.confidence) ∧
      (∀ (labels : List DoorLabel) (geometries : List DoorGeometry) (maxd : ℝ)
          (g : DoorGeometry),
        g ∈ sort_by geometry_confidence_ge geometries →
        g.geometry_id ∉ matched_geometry_ids labels geometries maxd →
          ∃ i, make_geometry_only_door i g ∈
            associate_labels_with_geometries labels geometries maxd) ∧
      (∀ (labels : List DoorLabel) (geometries : List DoorGeometry) (maxd : ℝ),
        ∀ d ∈ associate_labels_with_geometries labels geometries maxd,
          d.extraction_method = "geometry_only" →
            ∃ g, d.geometry = Option.some g ∧ d.label = Option.none ∧
              d.confidence = g.confidence * 0.7 ∧
              d.warnings = ["No label found near this door geometry"]) ∧
      (associate_labels_with_geometries [c2_label] [c2_geometry] 150 =
          [make_matched_door 0 c2_label c2_geometry] ∧
        center_distance (bbox_center c2_label.bbox) c2_geometry.center = 5 ∧
        (make_matched_door 0 c2_label c2_geometry).extraction_method =
          "label_geometry_match" ∧
        (make_matched_door 0 c2_label c2_geometry).confidence =
          min c2_label.confidence c2_geometry.confidence) := by
  have hdist : center_distance (bbox_center c2_label.bbox) c2_geometry.center = 5 := by
    simp only [center_distance, bbox_center, c2_label, c2_geometry]
    rw [show (115 - (100 + 120) / 2 : ℝ) ^ 2 + (105 - (100 + 110) / 2 : ℝ) ^ 2 = 25 by
      norm_num]
    rw [show (25 : ℝ) = 5 ^ 2 by norm_num]
    exact Real.sqrt_sq (by norm_num)
  refine ⟨?_, ?_, ?_, ?_, ?_, hdist, rfl, rfl⟩
  · exact find_nearest_some_spec
  · intro labels geometries maxd d hd hmethod
    rcases associate_shape labels geometries maxd d hd with h | h | h
    · obtain ⟨i, l, g, rfl⟩ := h
      exact ⟨l, g, rfl, rfl, rfl⟩
    · obtain ⟨i, g, -, -, rfl⟩ := h
      exact absurd hmethod (by simp [make_geometry_only_door])
    · obtain ⟨i, l, rfl⟩ := h
      exact absurd hmethod (by simp [make_label_only_door])
  · intro labels geometries maxd g hg hu
    unfold matched_geometry_ids at hu
    obtain ⟨i, hi⟩ := geometry_only_doors_mem (sort_by geometry_confidence_ge geometries)
      _ labels.length g hg hu
    refine ⟨i, ?_⟩
    simp only [associate_labels_with_geometries, associate_full]
    exact List.mem_append_left _ (List.mem_append_right _ hi)
  · intro labels geometries maxd d hd hmethod
    rcases associate_shape labels geometries maxd d hd with h | h | h
    · obtain ⟨i, l, g, rfl⟩ := h
      exact absurd hmethod (by simp [make_matched_door])
    · obtain ⟨i, g, -, -, rfl⟩ := h
      exact ⟨g, rfl, rfl, rfl, rfl⟩
    · obtain ⟨i, l, rfl⟩ := h
      exact absurd hmethod (by simp [make_label_only_door])
  · have hfn : find_nearest (bbox_center c2_label.bbox) [] 150 [c2_geometry] =
        Option.some (c2_geometry, 5) := by
      unfold find_nearest
      simp only [List.foldl_cons, List.foldl_nil]
      unfold find_nearest_step
      rw [if_neg (List.not_mem_nil _)]
      dsimp only
      rw [hdist]
      rw [if_pos (by norm_num : (5 : ℝ) ≤ 150)]
    have hsort : sort_by geometry_confidence_ge [c2_geometry] = [c2_geometry] := by
      simp [sort_by, insert_le]
    have henum : ([c2_label] : List DoorLabel).enum = [(0, c2_label)] := rfl
    have hloop : match_labels_loop [c2_geometry] 150 [(0, c2_label)] [] [] [] =
        ([make_matched_door 0 c2_label c2_geometry], [c2_geometry.geometry_id], [0]) := by
      simp only [match_labels_loop, hfn]
      simp
    have hgeo : geometry_only_doors [c2_geometry] [c2_geometry.geometry_id] 1 = [] := by
      simp [geometry_only_doors]
    have hstep : label_only_step [0] 2 ([c2_label], []) 0 = ([c2_label], []) := by
      unfold label_only_step
      simp
    simp only [associate_labels_with_geometries, associate_full, hsort, henum,
      List.length_cons, List.length_nil, hloop]
    rw [hgeo]
    show [make_matched_door 0 c2_label c2_geometry] ++
        (List.foldl (label_only_step [0] (1 + 1)) ([c2_label], []) (List.range 1)).2 = _
    rw [show List.range 1 = [0] from rfl]
    simp only [List.foldl_cons, List.foldl_nil]
    rw [show (1 + 1 : ℕ) = 2 from rfl, hstep]
    simp

theorem fire_rating_search_spec (label : DoorLabel) :
    ∀ (cur : List DoorLabel) (s : String),
      fire_rating_search label cur = Option.some s →
      ∃ other ∈ cur, other.pattern_type = "fire_rating" ∧
        center_distance (bbox_center other.bbox) (bbox_center label.bbox) < 100 ∧
        other.fire_rating = Option.some s := by
  intro cur
  induction cur with
  | nil =>
      intro s h
      simp [fire_rating_search] at h
  | cons o rest ih =>
      intro s h
      simp only [fire_rating_search] at h
      split_ifs at h with hc
      · exact ⟨o, List.mem_cons_self _ _, hc.1, hc.2, h⟩
      · obtain ⟨other, hmem, hrest⟩ := ih s h
        exact ⟨other, List.mem_cons_of_mem _ hmem, hrest⟩

theorem opt_str_truthy_some (x : Option String) (h : opt_str_truthy x = true) :
    ∃ s, x = Option.some s ∧ s ≠ "" := by
  rcases x with _ | s
  · simp [opt_str_truthy] at h
  · refine ⟨s, rfl, fun he => ?_⟩
    rw [he] at h
    simp only [opt_str_truthy] at h
    rw [show ("" : String).isEmpty = true from rfl] at h
    simp at h

theorem opt_str_truthy_of_ne (s : String) (h : s ≠ "") :
    opt_str_truthy (Option.some s) = true := by
  simp only [opt_str_truthy]
  have he : s.isEmpty = false := by
    rw [Bool.eq_false_iff]
    intro he2
    exact h ((String.isEmpty_iff s).1 he2)
  rw [he]
  rfl

theorem backfill_rel_fields (labels : List DoorLabel) (l lf : DoorLabel)
    (h : backfill_rel labels l lf) :
    lf.pattern_type = l.pattern_type ∧ lf.bbox = l.bbox := by
  rcases h with rfl | ⟨-, s, -, rfl, -⟩ <;> exact ⟨rfl, rfl⟩

theorem label_only_step_frame (labels : List DoorLabel) (ml : List ℕ) (b : ℕ)
    (st : List DoorLabel × List DoorExtraction) (j : ℕ)
    (hlen : st.1.length = labels.length)
    (hrel : ∀ i l, labels.get? i = Option.some l →
      ∃ lf, st.1.get? i = Option.some lf ∧ backfill_rel labels l lf) :
    (label_only_step ml b st j).1.length = labels.length ∧
      ∀ i l, labels.get? i = Option.some l →
        ∃ lf, (label_only_step ml b st j).1.get? i = Option.some lf ∧
          backfill_rel labels l lf := by
  unfold label_only_step
  rcases hg : st.1.get? j with _ | label
  · exact ⟨hlen, hrel⟩
  · dsimp only
    split_ifs with h1 h2 h3
    · exact ⟨hlen, hrel⟩
    · constructor
      · simpa [List.length_set] using hlen
      · intro i l hil
        by_cases hij : i = j
        · subst hij
          have hjlt : i < st.1.length := (List.get?_eq_some.1 hg).fst
          refine ⟨{ label with fire_rating := fire_rating_search label st.1 }, ?_, ?_⟩
          · exact List.get?_set_eq_of_lt _ hjlt
          · obtain ⟨lf, hlf, hR⟩ := hrel i l hil
            rw [hg] at hlf
            have hlabel : lf = label := (Option.some.inj hlf).symm
            subst hlabel
            obtain ⟨s, hs_eq, hs_ne⟩ := opt_str_truthy_some _ h3.1
            rcases hR with heq | ⟨hfalse, s2, hs2, hform, -⟩
            · subst heq
              right
              obtain ⟨other, hoth_mem, hoth_type, hoth_dist, -⟩ :=
                fire_rating_search_spec lf st.1 s hs_eq
              obtain ⟨k, hk⟩ := List.mem_iff_get?.1 hoth_mem
              have hklt : k < st.1.length := (List.get?_eq_some.1 hk).fst
              have hklt2 : k < labels.length := hlen ▸ hklt
              obtain ⟨o, ho⟩ : ∃ o, labels.get? k = Option.some o :=
                ⟨labels.get ⟨k, hklt2⟩, List.get?_eq_get hklt2⟩
              obtain ⟨lf2, hlf2, hR2⟩ := hrel k o ho
              rw [hk] at hlf2
              have hlf2e : lf2 = other := (Option.some.inj hlf2).symm
              subst hlf2e
              obtain ⟨hpt, hbb⟩ := backfill_rel_fields labels o lf2 hR2
              refine ⟨Bool.eq_false_iff.2 h3.2, s, hs_ne, by rw [hs_eq], o,
                List.get?_mem ho, ?_, ?_⟩
              · rw [← hpt]
                exact hoth_type
              · rw [← hbb]
                exact hoth_dist
            · exfalso
              exact h3.2 (hform ▸ opt_str_truthy_of_ne s2 hs2)
        · obtain ⟨lf, hlf, hR⟩ := hrel i l hil
          refine ⟨lf, ?_, hR⟩
          rw [List.get?_set_ne _ _ (fun he => hij he.symm)]
          exact hlf
    · exact ⟨hlen, hrel⟩
    · exact ⟨hlen, hrel⟩

theorem label_only_fold_frame (labels : List DoorLabel) (ml : List ℕ) (b : ℕ)
    (idxs : List ℕ) :
    ∀ st : List DoorLabel × List DoorExtraction,
      st.1.length = labels.length →
      (∀ i l, labels.get? i = Option.some l →
        ∃ lf, st.1.get? i = Option.some lf ∧ backfill_rel labels l lf) →
      (idxs.foldl (label_only_step ml b) st).1.length = labels.length ∧
        ∀ i l, labels.get? i = Option.some l →
          ∃ lf, (idxs.foldl (label_only_step ml b) st).1.get? i = Option.some lf ∧
            backfill_rel labels l lf := by
  induction idxs with
  | nil =>
      intro st hlen hrel
      exact ⟨hlen, hrel⟩
  | cons j rest ih =>
      intro st hlen hrel
      simp only [List.foldl_cons]
      obtain ⟨hlen2, hrel2⟩ := label_only_step_frame labels ml b st j hlen hrel
      exact ih _ hlen2 hrel2

/-- C4 (amended): during label-only emission the associator backfills a
missing fire rating by assigning it in place on the original label object;
the final state of the caller's labels list is element-wise related to the
input by `backfill_rel` — each label is either untouched or differs from the
input label only in its `fire_rating` field, which changes only from an
absent/empty value to a nonempty one and only when some fire-rating label
lies strictly within 100px. -/
theorem associator_label_state (labels : List DoorLabel)
    (geometries : List DoorGeometry) (maxd : ℝ) :
    (associate_final_labels labels geometries maxd).length = labels.length ∧
      ∀ i l, labels.get? i = Option.some l →
        ∃ lf, (associate_final_labels labels geometries maxd).get? i =
            Option.some lf ∧ backfill_rel labels l lf := by
  unfold associate_final_labels associate_full
  exact label_only_fold_frame labels _ _ _ (labels, []) rfl
    (fun i l hl => ⟨l, hl, Or.inl rfl⟩)

/-- C4 counterexample: with an unmatched door label lacking a fire rating
and a fire-rating label 20px away, the associator rewrites the fire_rating
field of the label in the caller's input list — the original list object
does not survive unchanged, contrary to the claim. -/
theorem associator_mutates_label :
    associate_final_labels [c4_door_label, c4_fire_label] [] 150 =
        [{ c4_door_label with fire_rating := Option.some "T30" }, c4_fire_label] ∧
      c4_door_label.fire_rating = Option.none ∧
      associate_final_labels [c4_door_label, c4_fire_label] [] 150 ≠
        [c4_door_label, c4_fire_label] := by
  have hd20 : center_distance (bbox_center c4_fire_label.bbox)
      (bbox_center c4_door_label.bbox) = 20 := by
    simp only [center_distance, bbox_center, c4_fire_label, c4_door_label]
    rw [show ((0 + 10) / 2 - (0 + 10) / 2 : ℝ) ^ 2 +
        ((0 + 10) / 2 - (20 + 30) / 2 : ℝ) ^ 2 = 400 by norm_num]
    rw [show (400 : ℝ) = 20 ^ 2 by norm_num]
    exact Real.sqrt_sq (by norm_num)
  have hfs : fire_rating_search c4_door_label [c4_door_label, c4_fire_label] =
      Option.some "T30" := by
    have h1 : ¬ (c4_door_label.pattern_type = "fire_rating" ∧
        center_distance (bbox_center c4_door_label.bbox)
          (bbox_center c4_door_label.bbox) < 100) := by
      intro hc
      exact absurd hc.1 (by simp [c4_door_label])
    simp only [fire_rating_search, if_neg h1]
    rw [if_pos ⟨by simp [c4_fire_label], by rw [hd20]; norm_num⟩]
    rfl
  have hnot1 : ¬ opt_str_truthy c4_door_label.fire_rating = true := by
    simp [c4_door_label, opt_str_truthy]
  have hstep0 : label_only_step [] 2 (([c4_door_label, c4_fire_label] :
      List DoorLabel), ([] : List DoorExtraction)) 0 =
      ([{ c4_door_label with fire_rating := Option.some "T30" }, c4_fire_label],
        [make_label_only_door 2
          { c4_door_label with fire_rating := Option.some "T30" }]) := by
    unfold label_only_step
    rw [show (([c4_door_label, c4_fire_label] : List DoorLabel),
      ([] : List DoorExtraction)).1.get? 0 = Option.some c4_door_label from rfl]
    dsimp only
    rw [if_neg (List.not_mem_nil 0)]
    rw [if_pos (Or.inl (show c4_door_label.pattern_type = "room_door" from rfl))]
    rw [hfs]
    rw [if_pos ⟨rfl, hnot1⟩]
    rfl
  have hstep1 : ∀ ds : List DoorExtraction,
      label_only_step [] 2 (([{ c4_door_label with fire_rating := Option.some "T30" },
        c4_fire_label] : List DoorLabel), ds) 1 =
      ([{ c4_door_label with fire_rating := Option.some "T30" }, c4_fire_label], ds) := by
    intro ds
    unfold label_only_step
    rw [show (([{ c4_door_label with fire_rating := Option.some "T30" },
      c4_fire_label] : List DoorLabel), ds).1.get? 1 =
        Option.some c4_fire_label from rfl]
    dsimp only
    rw [if_neg (List.not_mem_nil 1)]
    rw [if_neg (show ¬ (c4_fire_label.pattern_type = "room_door" ∨
      door_number_search c4_fire_label.label_text = true) by decide)]
  have heval : associate_final_labels [c4_door_label, c4_fire_label] [] 150 =
      [{ c4_door_label with fire_rating := Option.some "T30" }, c4_fire_label] := by
    show (associate_full [c4_door_label, c4_fire_label] [] 150).2 = _
    simp only [associate_full]
    rw [show sort_by geometry_confidence_ge ([] : List DoorGeometry) = [] from rfl,
      show match_labels_loop [] 150
        ([c4_door_label, c4_fire_label] : List DoorLabel).enum [] [] [] =
        ([], [], []) from rfl]
    dsimp only
    rw [show ([c4_door_label, c4_fire_label] : List DoorLabel).length +
      ([] : List DoorGeometry).length = 2 from rfl]
    rw [show List.range ([c4_door_label, c4_fire_label] : List DoorLabel).length =
      [0, 1] from rfl]
    simp only [List.foldl_cons, List.foldl_nil]
    rw [hstep0, hstep1]
  refine ⟨heval, rfl, ?_⟩
  rw [heval]
  intro h
  have hhead := congrArg (fun l : List DoorLabel => l.get? 0) h
  simp only [List.get?] at hhead
  have hl : ({ c4_door_label with fire_rating := Option.some "T30" } : DoorLabel) =
      c4_door_label := Option.some.inj hhead
  have hfr := congrArg DoorLabel.fire_rating hl
  simp [c4_door_label] at hfr

/-- C6 (amended): singleton and empty region lists are returned as-is; two
regions in sorted order with gaps within the merge distance on both axes
merge into a single region whose bounding box is the union, whose confidence
is the average of the two and whose length is the sum; non-adjacent regions
survive unchanged.  A chain of more than two regions is folded pairwise, so
its confidence is the iterated pairwise average, not the arithmetic mean of
all members (see the counterexample). -/
theorem merge_adjacent_regions_behavior :
    (∀ (regions : List DetectedRegion) (md : ℝ), regions.length ≤ 1 →
        merge_adjacent_regions regions md = regions) ∧
      (∀ r1 r2 : DetectedRegion,
        (merge_two r1 r2).bbox.x0 = min r1.bbox.x0 r2.bbox.x0 ∧
          (merge_two r1 r2).bbox.y0 = min r1.bbox.y0 r2.bbox.y0 ∧
          (merge_two r1 r2).bbox.x1 = max r1.bbox.x1 r2.bbox.x1 ∧
          (merge_two r1 r2).bbox.y1 = max r1.bbox.y1 r2.bbox.y1 ∧
          (merge_two r1 r2).confidence = (r1.confidence + r2.confidence) / 2 ∧
          (merge_two r1 r2).length_px = r1.length_px + r2.length_px) ∧
      (∀ (r1 r2 : DetectedRegion) (md : ℝ), region_key_le r1 r2 →
        max 0 (r2.bbox.x0 - r1.bbox.x1) ≤ md → max 0 (r2.bbox.y0 - r1.bbox.y1) ≤ md →
        merge_adjacent_regions [r1, r2] md = [merge_two r1 r2]) ∧
      (∀ (r1 r2 : DetectedRegion) (md : ℝ), region_key_le r1 r2 →
        ¬ (max 0 (r2.bbox.x0 - r1.bbox.x1) ≤ md ∧ max 0 (r2.bbox.y0 - r1.bbox.y1) ≤ md) →
        merge_adjacent_regions [r1, r2] md = [r1, r2]) := by
  refine ⟨?_, ?_, ?_, ?_⟩
  · intro regions md h
    simp [merge_adjacent_regions, h]
  · intro r1 r2
    exact ⟨rfl, rfl, rfl, rfl, rfl, rfl⟩
  · intro r1 r2 md hkey hx hy
    simp [merge_adjacent_regions, sort_by, insert_le, merge_loop, hkey, hx, hy]
  · intro r1 r2 md hkey hnot
    have hsort : sort_by region_key_le [r1, r2] = [r1, r2] := by
      simp [sort_by, insert_le, hkey]
    unfold merge_adjacent_regions
    rw [if_neg (by simp), hsort]
    show merge_loop md r1 [r2] = [r1, r2]
    simp only [merge_loop]
    rw [if_neg hnot]

/-- C6 counterexample: a chain of three adjacent regions with confidences 1,
1 and 0 merges into one region of confidence ((1+1)/2+0)/2 = 1/2, not the
claimed three-way average 2/3. -/
theorem merge_adjacent_regions_chain_average :
    (merge_adjacent_regions c6_regions 5).map DetectedRegion.confidence = [1 / 2] ∧
      ((1 : ℝ) + 1 + 0) / 3 ≠ 1 / 2 := by
  constructor
  · norm_num [merge_adjacent_regions, c6_regions, c6_region, sort_by, insert_le,
      region_key_le, merge_loop, merge_two, max_def]
  · norm_num

/-- C7 counterexample to the claimed warning: on an unparsable scale string
the function defaults to N = 100 but emits no warning — its warning channel
(the source body contains no warning or logging statement) is empty. -/
theorem convert_to_meters_no_warning :
    parse_scale "unknown scale" = Option.none ∧
    (convert_to_meters 100 "unknown scale" 72).1 = 127 / 36 ∧
    (convert_to_meters 100 "unknown scale" 72).2 = [] := by
  have h : parse_scale "unknown scale" = Option.none := by decide
  refine ⟨h, ?_, rfl⟩
  simp [convert_to_meters, h]
  norm_num

theorem upsert_entry_key_self (r : DoorExtraction → DoorExtraction → Prop) (k : DedupKey)
    (v : DoorExtraction) (l : List (DedupKey × DoorExtraction)) :
    k ∈ (upsert_entry r k v l).map Prod.fst := by
  rw [upsert_entry_keys]
  split_ifs with h1
  · exact h1
  · exact List.mem_append_right _ (List.mem_singleton_self k)

theorem upsert_entry_keys_mono (r : DoorExtraction → DoorExtraction → Prop)
    (k0 : DedupKey) (v : DoorExtraction) (l : List (DedupKey × DoorExtraction))
    (k : DedupKey) (h : k ∈ l.map Prod.fst) :
    k ∈ (upsert_entry r k0 v l).map Prod.fst := by
  rw [upsert_entry_keys]
  split_ifs with h1
  · exact h
  · exact List.mem_append_left _ h

theorem dedup_step_nodup (acc : List (DedupKey × DoorExtraction)) (d : DoorExtraction)
    (h : (acc.map Prod.fst).Nodup) : ((dedup_step acc d).map Prod.fst).Nodup := by
  unfold dedup_step upsert_keep_max upsert_plain
  rcases d.door_number with _ | m <;> dsimp only
  · exact upsert_entry_nodup _ _ _ _ h
  · split_ifs with h1 h2
    · exact upsert_entry_nodup _ _ _ _ h
    · exact h
    · exact upsert_entry_nodup _ _ _ _ h

theorem dedup_fold_nodup (ds : List DoorExtraction) :
    ∀ acc, ((acc.map Prod.fst).Nodup) →
      (((ds.foldl dedup_step acc).map Prod.fst).Nodup) := by
  induction ds with
  | nil => intro acc h; exact h
  | cons d rest ih =>
      intro acc h
      simp only [List.foldl_cons]
      exact ih _ (dedup_step_nodup acc d h)

theorem dedup_step_keys_mono (acc : List (DedupKey × DoorExtraction)) (d : DoorExtraction)
    (k : DedupKey) (h : k ∈ acc.map Prod.fst) : k ∈ (dedup_step acc d).map Prod.fst := by
  unfold dedup_step upsert_keep_max upsert_plain
  rcases d.door_number with _ | m <;> dsimp only
  · exact upsert_entry_keys_mono _ _ _ _ _ h
  · split_ifs with h1 h2
    · exact upsert_entry_keys_mono _ _ _ _ _ h
    · exact h
    · exact upsert_entry_keys_mono _ _ _ _ _ h

theorem dedup_fold_keys_mono (ds : List DoorExtraction) :
    ∀ acc k, k ∈ acc.map Prod.fst → k ∈ (ds.foldl dedup_step acc).map Prod.fst := by
  induction ds with
  | nil => intro acc k h; exact h
  | cons d rest ih =>
      intro acc k h
      simp only [List.foldl_cons]
      exact ih _ _ (dedup_step_keys_mono acc d k h)

theorem dedup_step_inl_mem (acc : List (DedupKey × DoorExtraction)) (d : DoorExtraction)
    (m : String) (w : DoorExtraction) (hp : (Sum.inl m, w) ∈ dedup_step acc d) :
    (Sum.inl m, w) ∈ acc ∨ (w = d ∧ d.door_number = Option.some m) := by
  revert hp
  unfold dedup_step upsert_keep_max upsert_plain
  rcases hdn : d.door_number with _ | k <;> dsimp only
  · intro hp
    rcases upsert_entry_mem _ _ _ _ _ hp with h | h
    · exact absurd (congrArg Prod.fst h) (by simp)
    · exact Or.inl h
  · split_ifs with h1 h2
    · intro hp
      rcases upsert_entry_mem _ _ _ _ _ hp with h | h
      · injection h with hk hv
        exact Or.inr ⟨hv, congrArg Option.some (Sum.inl.inj hk).symm⟩
      · exact Or.inl h
    · intro hp
      exact Or.inl hp
    · intro hp
      rcases upsert_entry_mem _ _ _ _ _ hp with h | h
      · exact absurd (congrArg Prod.fst h) (by simp)
      · exact Or.inl h

theorem dedup_step_of_group (acc : List (DedupKey × DoorExtraction)) (d : DoorExtraction)
    (n : String) (hdn : d.door_number = Option.some n) (hn : n ≠ "")
    (hsuf : door_number_with_suffix_match n = true) :
    dedup_step acc d = upsert_keep_max (Sum.inl n) d acc := by
  unfold dedup_step
  rcases h : d.door_number with _ | m
  · rw [h] at hdn
    exact absurd hdn (by simp)
  · rw [h] at hdn
    injection hdn with hmn
    subst hmn
    dsimp only
    rw [if_pos hn, if_pos hsuf]

theorem dedup_step_consistent (acc : List (DedupKey × DoorExtraction)) (d : DoorExtraction)
    (h : ∀ p ∈ acc, dedup_entry_consistent p) :
    ∀ p ∈ dedup_step acc d, dedup_entry_consistent p := by
  unfold dedup_step upsert_keep_max upsert_plain
  rcases hdn : d.door_number with _ | m <;> dsimp only
  · intro p hp
    rcases upsert_entry_mem _ _ _ _ p hp with h2 | h2
    · rw [h2]
      show opt_str_truthy d.door_number = false
      rw [hdn]
      rfl
    · exact h p h2
  · split_ifs with h1 h2
    · intro p hp
      rcases upsert_entry_mem _ _ _ _ p hp with h3 | h3
      · rw [h3]
        exact ⟨hdn, h1, h2⟩
      · exact h p h3
    · exact h
    · intro p hp
      rcases upsert_entry_mem _ _ _ _ p hp with h3 | h3
      · rw [h3]
        show opt_str_truthy d.door_number = false
        push_neg at h1
        rw [hdn, h1]
        decide
      · exact h p h3

theorem dedup_fold_consistent (ds : List DoorExtraction) :
    ∀ acc, (∀ p ∈ acc, dedup_entry_consistent p) →
      ∀ p ∈ ds.foldl dedup_step acc, dedup_entry_consistent p := by
  induction ds with
  | nil => intro acc h; exact h
  | cons d rest ih =>
      intro acc h
      simp only [List.foldl_cons]
      exact ih _ (dedup_step_consistent acc d h)

theorem upsert_entry_self_mem (r : DoorExtraction → DoorExtraction → Prop)
    (hr : ∀ a b, r a b) (k : DedupKey) (v : DoorExtraction)
    (l : List (DedupKey × DoorExtraction)) (hnd : (l.map Prod.fst).Nodup) :
    (k, v) ∈ upsert_entry r k v l := by
  by_cases hk : k ∈ l.map Prod.fst
  · obtain ⟨⟨k1, w⟩, hw, hfst⟩ := List.mem_map.1 hk
    dsimp at hfst
    subst hfst
    have hval := (upsert_entry_value_at r k1 v l hnd w hw).1
    rw [if_pos (hr w v)] at hval
    exact hval
  · rw [upsert_entry_fresh r k v l hk]
    exact List.mem_append_right _ (List.mem_singleton_self _)

theorem dedup_step_self_inr (acc : List (DedupKey × DoorExtraction)) (d : DoorExtraction)
    (hnd : (acc.map Prod.fst).Nodup) (hfalsy : opt_str_truthy d.door_number = false) :
    (Sum.inr d.extraction_id, d) ∈ dedup_step acc d := by
  unfold dedup_step upsert_plain
  rcases hdn : d.door_number with _ | m <;> dsimp only
  · exact upsert_entry_self_mem _ (fun _ _ => trivial) _ _ _ hnd
  · have hm : m = "" := by
      rw [hdn] at hfalsy
      simpa [opt_str_truthy, String.isEmpty_iff] using hfalsy
    subst hm
    rw [if_neg (by simp)]
    exact upsert_entry_self_mem _ (fun _ _ => trivial) _ _ _ hnd

theorem dedup_fold_keeps_inr (ds : List DoorExtraction) :
    ∀ acc (j : ℕ) (w : DoorExtraction), (Sum.inr j, w) ∈ acc →
      (∀ e ∈ ds, e.extraction_id ≠ j) → (Sum.inr j, w) ∈ ds.foldl dedup_step acc := by
  induction ds with
  | nil => intro acc j w h _; exact h
  | cons d rest ih =>
      intro acc j w h hne
      simp only [List.foldl_cons]
      exact ih _ j w (dedup_step_keeps_inr acc d j w h (hne d (List.mem_cons_self _ _)))
        (fun e he => hne e (List.mem_cons_of_mem _ he))

theorem dedup_fold_keeps_falsy (ds : List DoorExtraction) :
    ∀ acc, ((acc.map Prod.fst).Nodup) →
      ((ds.map DoorExtraction.extraction_id).Nodup) →
      ∀ d ∈ ds, opt_str_truthy d.door_number = false →
        (Sum.inr d.extraction_id, d) ∈ ds.foldl dedup_step acc := by
  induction ds with
  | nil => intro acc _ _ d hd; exact absurd hd (List.not_mem_nil d)
  | cons e rest ih =>
      intro acc hacc hids d hd hfalsy
      simp only [List.map_cons, List.nodup_cons] at hids
      simp only [List.foldl_cons]
      rcases List.mem_cons.1 hd with h | h
      · rw [h] at hfalsy ⊢
        exact dedup_fold_keeps_inr rest _ e.extraction_id e
          (dedup_step_self_inr acc e hacc hfalsy)
          (fun x hx hxe => hids.1 (hxe ▸ List.mem_map_of_mem DoorExtraction.extraction_id hx))
      · exact ih _ (dedup_step_nodup acc e hacc) hids.2 d h hfalsy

theorem dedup_fold_key_of_group (n : String) (hn : n ≠ "")
    (hsuf : door_number_with_suffix_match n = true) (ds : List DoorExtraction) :
    ∀ acc, (∃ g ∈ ds, g.door_number = Option.some n) →
      Sum.inl n ∈ (ds.foldl dedup_step acc).map Prod.fst := by
  induction ds with
  | nil =>
      rintro acc ⟨g, hg, _⟩
      exact absurd hg (List.not_mem_nil g)
  | cons d rest ih =>
      rintro acc ⟨g, hg, hgdn⟩
      simp only [List.foldl_cons]
      rcases List.mem_cons.1 hg with h | h
      · rw [h] at hgdn
        refine dedup_fold_keys_mono rest _ _ ?_
        rw [dedup_step_of_group acc d n hgdn hn hsuf]
        unfold upsert_keep_max
        exact upsert_entry_key_self _ _ _ _
      · exact ih _ ⟨g, h, hgdn⟩

theorem dedup_fold_inl_max (n : String) (hn : n ≠ "")
    (hsuf : door_number_with_suffix_match n = true) (ds : List DoorExtraction) :
    ∀ acc, ((acc.map Prod.fst).Nodup) →
      ∀ w, (Sum.inl n, w) ∈ ds.foldl dedup_step acc →
        ((Sum.inl n, w) ∈ acc ∨ (w ∈ ds ∧ w.door_number = Option.some n)) ∧
        (∀ g ∈ ds, g.door_number = Option.some n → g.confidence ≤ w.confidence) ∧
        (∀ v, (Sum.inl n, v) ∈ acc → v.confidence ≤ w.confidence) := by
  induction ds with
  | nil =>
      intro acc hnd w hw
      refine ⟨Or.inl hw, ?_, ?_⟩
      · intro g hg
        exact absurd hg (List.not_mem_nil g)
      · intro v hv
        exact le_of_eq (congrArg DoorExtraction.confidence
          (pair_mem_nodup_unique acc hnd (Sum.inl n) v w hv hw))
  | cons d rest ih =>
      intro acc hnd w hw
      simp only [List.foldl_cons] at hw
      have hnd2 := dedup_step_nodup acc d hnd
      obtain ⟨ih1, ih2, ih3⟩ := ih (dedup_step acc d) hnd2 w hw
      by_cases hdn : d.door_number = Option.some n
      · have hstep : dedup_step acc d = upsert_keep_max (Sum.inl n) d acc :=
          dedup_step_of_group acc d n hdn hn hsuf
        have hpost : ∃ v2, (Sum.inl n, v2) ∈ dedup_step acc d ∧
            d.confidence ≤ v2.confidence ∧
            ∀ v, (Sum.inl n, v) ∈ acc → v.confidence ≤ v2.confidence := by
          rw [hstep]
          unfold upsert_keep_max
          rcases Classical.em ((Sum.inl n : DedupKey) ∈ acc.map Prod.fst) with hk | hk
          · obtain ⟨⟨k1, v0⟩, hv0, hfst⟩ := List.mem_map.1 hk
            dsimp at hfst
            subst hfst
            have hval := (upsert_entry_value_at (fun v0 w => w.confidence > v0.confidence)
              _ d acc hnd v0 hv0).1
            by_cases hc : v0.confidence < d.confidence
            · rw [if_pos hc] at hval
              refine ⟨d, hval, le_refl _, ?_⟩
              intro v hv
              rw [pair_mem_nodup_unique acc hnd _ v v0 hv hv0]
              exact le_of_lt hc
            · rw [if_neg hc] at hval
              refine ⟨v0, hval, not_lt.1 hc, ?_⟩
              intro v hv
              exact le_of_eq (congrArg DoorExtraction.confidence
                (pair_mem_nodup_unique acc hnd _ v v0 hv hv0))
          · refine ⟨d, ?_, le_refl _, ?_⟩
            · rw [upsert_entry_fresh _ _ _ _ hk]
              exact List.mem_append_right _ (List.mem_singleton_self _)
            · intro v hv
              exact absurd (List.mem_map_of_mem Prod.fst hv) hk
        obtain ⟨v2, hv2, hdc, hvc⟩ := hpost
        have hv2w : v2.confidence ≤ w.confidence := ih3 v2 hv2
        refine ⟨?_, ?_, ?_⟩
        · rcases ih1 with h | h
          · rcases dedup_step_inl_mem acc d n w h with h2 | h2
            · exact Or.inl h2
            · exact Or.inr ⟨by rw [h2.1]; exact List.mem_cons_self d rest,
                by rw [h2.1]; exact h2.2⟩
          · exact Or.inr ⟨List.mem_cons_of_mem d h.1, h.2⟩
        · intro g hg hgdn
          rcases List.mem_cons.1 hg with h | h
          · rw [h]
            exact le_trans hdc hv2w
          · exact ih2 g h hgdn
        · intro v hv
          exact le_trans (hvc v hv) hv2w
      · refine ⟨?_, ?_, ?_⟩
        · rcases ih1 with h | h
          · rcases dedup_step_inl_mem acc d n w h with h2 | h2
            · exact Or.inl h2
            · exact absurd h2.2 hdn
          · exact Or.inr ⟨List.mem_cons_of_mem d h.1, h.2⟩
        · intro g hg hgdn
          rcases List.mem_cons.1 hg with h | h
          · exact absurd (show d.door_number = Option.some n by rw [← h]; exact hgdn) hdn
          · exact ih2 g h hgdn
        · intro v hv
          exact ih3 v (dedup_step_keeps_inl_of_ne acc d n v hv hdn)

theorem dedup_group_unique (n : String) (hn : n ≠ "")
    (hsuf : door_number_with_suffix_match n = true) (ds : List DoorExtraction)
    (hex : ∃ g ∈ ds, g.door_number = Option.some n) :
    ∃ w, ((dedup_doors ds).map Prod.snd).filter
        (fun d => decide (d.door_number = Option.some n)) = [w] ∧
      w ∈ ds ∧ w.door_number = Option.some n ∧
      ∀ g ∈ ds, g.door_number = Option.some n → g.confidence ≤ w.confidence := by
  have hnil : ∀ p ∈ ([] : List (DedupKey × DoorExtraction)), dedup_entry_consistent p := by
    intro p hp
    exact absurd hp (List.not_mem_nil p)
  have hndnil : ((([] : List (DedupKey × DoorExtraction))).map Prod.fst).Nodup :=
    List.nodup_nil
  have hkey := dedup_fold_key_of_group n hn hsuf ds [] hex
  obtain ⟨⟨k1, w⟩, hw, hfst⟩ := List.mem_map.1 hkey
  dsimp at hfst
  subst hfst
  obtain ⟨hmem, hmax, _⟩ := dedup_fold_inl_max n hn hsuf ds [] hndnil w hw
  have hwds : w ∈ ds ∧ w.door_number = Option.some n := by
    rcases hmem with h | h
    · exact absurd h (List.not_mem_nil _)
    · exact h
  have hnd : (((ds.foldl dedup_step []).map Prod.fst)).Nodup :=
    dedup_fold_nodup ds [] hndnil
  have hcons := dedup_fold_consistent ds [] hnil
  refine ⟨w, ?_, hwds.1, hwds.2, hmax⟩
  have hfe : (ds.foldl dedup_step []).filter
      ((fun d => decide (d.door_number = Option.some n)) ∘ Prod.snd) =
      (ds.foldl dedup_step []).filter (fun p => decide (p.1 = Sum.inl n)) := by
    apply List.filter_congr
    intro p hp
    rcases p with ⟨k, v⟩
    rcases k with m | j
    · obtain ⟨h1, h2, h3⟩ : v.door_number = Option.some m ∧ m ≠ "" ∧
          door_number_with_suffix_match m = true := hcons _ hp
      simp only [Function.comp]
      dsimp only
      rw [h1]
      by_cases hmn : m = n
      · rw [hmn]
        simp
      · simp [Option.some.injEq, Sum.inl.injEq, hmn]
    · have h1 : opt_str_truthy v.door_number = false := hcons _ hp
      simp only [Function.comp]
      dsimp only
      rcases hv : v.door_number with _ | s
      · simp
      · rw [hv] at h1
        have hs : s = "" := by
          simpa [opt_str_truthy, String.isEmpty_iff] using h1
        subst hs
        simp [Ne.symm hn]
  unfold dedup_doors
  rw [List.filter_map Prod.snd _, hfe,
    filter_key_singleton _ hnd (Sum.inl n) w hw]
  rfl

/-- C3: the per-page filter-and-dedup pass of `_extract_doors_from_page`
keeps only input records at or above the caller's minimum confidence; every
surviving record whose door number is truthy carries the required trailing
`-N` instance suffix; whenever some record above the confidence floor carries
a given (nonempty, suffix-matched) door number, exactly one record with that
number survives, drawn from the above-floor records and with confidence at
least that of every above-floor record sharing the number; records with a
Python-falsy door number are never deduplicated against each other — with
pairwise-distinct record ids all of them are kept; and two records sharing
door number "B.00.2.006-1" with confidences 0.6 and 0.8 yield exactly the
0.8 record. -/
theorem dedup_claims :
    (∀ (doors : List DoorExtraction) (minc : ℝ),
        ∀ d ∈ page_filter_dedup doors minc, d ∈ doors ∧ minc ≤ d.confidence) ∧
    (∀ (doors : List DoorExtraction) (minc : ℝ),
        ∀ d ∈ page_filter_dedup doors minc, ∀ s, d.door_number = Option.some s →
          s ≠ "" → door_number_with_suffix_match s = true) ∧
    (∀ (doors : List DoorExtraction) (minc : ℝ) (n : String),
        n ≠ "" → door_number_with_suffix_match n = true →
        (∃ g ∈ doors.filter (fun d => decide (d.confidence ≥ minc)),
            g.door_number = Option.some n) →
        ∃ w, (page_filter_dedup doors minc).filter
              (fun d => decide (d.door_number = Option.some n)) = [w] ∧
          w ∈ doors.filter (fun d => decide (d.confidence ≥ minc)) ∧
          w.door_number = Option.some n ∧
          ∀ g ∈ doors.filter (fun d => decide (d.confidence ≥ minc)),
            g.door_number = Option.some n → g.confidence ≤ w.confidence) ∧
    (∀ (doors : List DoorExtraction) (minc : ℝ),
        (((doors.filter (fun d => decide (d.confidence ≥ minc))).map
          DoorExtraction.extraction_id).Nodup) →
        ∀ d ∈ doors.filter (fun d => decide (d.confidence ≥ minc)),
          opt_str_truthy d.door_number = false → d ∈ page_filter_dedup doors minc) ∧
    page_filter_dedup [c3_door 0 0.6, c3_door 1 0.8] 0.5 = [c3_door 1 0.8] := by
  refine ⟨?_, ?_, ?_, ?_, ?_⟩
  · intro doors minc d hd
    exact page_filter_dedup_mem doors minc d hd
  · intro doors minc d hd s hs hsne
    have hnil : ∀ p ∈ ([] : List (DedupKey × DoorExtraction)),
        dedup_entry_consistent p := by
      intro p hp
      exact absurd hp (List.not_mem_nil p)
    unfold page_filter_dedup dedup_doors at hd
    obtain ⟨p, hp, hps⟩ := List.mem_map.1 hd
    have hcons := dedup_fold_consistent _ [] hnil p hp
    rcases p with ⟨k, v⟩
    dsimp at hps
    subst hps
    rcases k with m | j
    · obtain ⟨h1, h2, h3⟩ : v.door_number = Option.some m ∧ m ≠ "" ∧
          door_number_with_suffix_match m = true := hcons
      rw [hs] at h1
      injection h1 with hsm
      rw [hsm]
      exact h3
    · have h1 : opt_str_truthy v.door_number = false := hcons
      rw [hs, opt_str_truthy_of_ne s hsne] at h1
      exact absurd h1 (by simp)
  · intro doors minc n hn hsuf hex
    obtain ⟨w, hw1, hw2, hw3, hw4⟩ := dedup_group_unique n hn hsuf _ hex
    exact ⟨w, hw1, hw2, hw3, hw4⟩
  · intro doors minc hids d hd hfalsy
    have h := dedup_fold_keeps_falsy _ [] List.nodup_nil hids d hd hfalsy
    exact List.mem_map_of_mem Prod.snd h
  · have hsf : door_number_with_suffix_match "B.00.2.006-1" = true := by decide
    have h1 : dedup_step [] (c3_door 0 0.6) =
        [(Sum.inl "B.00.2.006-1", c3_door 0 0.6)] := by
      rw [dedup_step_of_group [] (c3_door 0 0.6) "B.00.2.006-1" rfl (by decide) hsf]
      rfl
    have h2 : dedup_step [(Sum.inl "B.00.2.006-1", c3_door 0 0.6)] (c3_door 1 0.8) =
        [(Sum.inl "B.00.2.006-1", c3_door 1 0.8)] := by
      rw [dedup_step_of_group _ (c3_door 1 0.8) "B.00.2.006-1" rfl (by decide) hsf]
      simp only [upsert_keep_max, upsert_entry, c3_door]
      rw [if_pos (show (0.8 : ℝ) > 0.6 by norm_num), if_pos trivial]
    have hfil : ([c3_door 0 0.6, c3_door 1 0.8] : List DoorExtraction).filter
        (fun d => decide (d.confidence ≥ (0.5 : ℝ))) =
        [c3_door 0 0.6, c3_door 1 0.8] := by
      simp only [List.filter_cons, List.filter_nil, c3_door]
      norm_num
    show (dedup_doors (([c3_door 0 0.6, c3_door 1 0.8] : List DoorExtraction).filter
        (fun d => decide (d.confidence ≥ (0.5 : ℝ))))).map Prod.snd = [c3_door 1 0.8]
    rw [hfil]
    unfold dedup_doors
    simp only [List.foldl_cons, List.foldl_nil]
    rw [h1, h2]
    rfl
